import Mathlib

/-! Encrypted XLog storage manager (`pg_tde_xlog_encrypt.c`)

A shallow embedding of the WAL page codec of `contrib/pg_tde`:

* `SetXLogPageIVPrefix`               the IV deriver,
* `TDEXLogWriteEncryptedPages`        the encrypting write path,
* `tdeheap_xlog_seg_write` / `tdeheap_xlog_seg_read`   the storage-manager entry points,
* `XLOGChooseNumBuffers` / `TDEXLogEncryptBuffSize`    the sizing of the scratch buffer.

Conventions.

* A byte is a `Nat`; a store through a `char` or `uint16` lvalue truncates with
  an explicit `%`.  A well-formed byte is `< 256`.
* A memory region (`Mem`) is a function from the index relative to a base
  pointer to the byte stored there.  The C code carries no bounds, so neither
  does the region: a store at index `i` is a store at `base + i`.
* `size_t` arithmetic that can wrap is taken modulo `2 ^ 64`.
* Everything the source uses but does not define (the header constants, the
  cipher macros, the key lookup, the raw positional I/O) is a field of `XLogEnv`.
* The input buffer, the scratch buffer and `DecryptCurrentPageHrd` are
  separate regions.  Where aliasing is the question, the write path is embedded
  a second time over one address space (`TDEXLogWriteEncryptedPages_mem`), and
  `write_mem_scratch` shows that the two embeddings agree on disjoint regions.
-/

namespace PgTdeXLog

/-! ## Memory regions -/

/-- A region of bytes addressed relative to a base pointer. -/
abbrev Mem := Nat → Nat

/-- The bytes `m[off .. off + n)` as a list. -/
def readRegion (m : Mem) (off n : Nat) : List Nat :=
  (List.range n).map (fun i => m (off + i))

/-- Store the bytes of `out` at `dst[off .. off + out.length)`. -/
def writeAt (dst : Mem) (off : Nat) (out : List Nat) : Mem :=
  fun i => if off ≤ i ∧ i < off + out.length then out.getD (i - off) 0 else dst i

/-- The C library call `memcpy(dst, src, n)` on regions that do not overlap. -/
def memcpy (dst src : Mem) (n : Nat) : Mem :=
  fun i => if i < n then src i else dst i

/-- Every byte of the region at an index below `n` is a well-formed byte. -/
def BytesOK (m : Mem) (n : Nat) : Prop := ∀ i, i < n → m i < 256

/-! ## The IV deriver -/

/-- `char iv_prefix[16] = {0,};` -/
def ivZero : List Nat := List.replicate 16 0

/-- Source: `SetXLogPageIVPrefix` (lines 216-232).  `tli` is a `uint32`, `lsn` a
`uint64`; each assignment converts its right-hand side to `char`. -/
def SetXLogPageIVPrefix (tli lsn : Nat) (iv : List Nat) : List Nat :=
  let iv := iv.set 0 ((tli >>> 24) % 256)
  let iv := iv.set 1 (((tli >>> 16) &&& 0xFF) % 256)
  let iv := iv.set 2 (((tli >>> 8) &&& 0xFF) % 256)
  let iv := iv.set 3 ((tli &&& 0xFF) % 256)
  let iv := iv.set 4 ((lsn >>> 56) % 256)
  let iv := iv.set 5 (((lsn >>> 48) &&& 0xFF) % 256)
  let iv := iv.set 6 (((lsn >>> 40) &&& 0xFF) % 256)
  let iv := iv.set 7 (((lsn >>> 32) &&& 0xFF) % 256)
  let iv := iv.set 8 (((lsn >>> 24) &&& 0xFF) % 256)
  let iv := iv.set 9 (((lsn >>> 16) &&& 0xFF) % 256)
  let iv := iv.set 10 (((lsn >>> 8) &&& 0xFF) % 256)
  let iv := iv.set 11 ((lsn &&& 0xFF) % 256)
  iv

/-- A list of bytes read as a big-endian unsigned integer. -/
def beValue (bs : List Nat) : Nat := bs.foldl (fun acc b => acc * 256 + b) 0

/-- The twelve bytes `SetXLogPageIVPrefix` stores, in index order. -/
def ivBytes (tli lsn : Nat) : List Nat :=
  [tli / 2 ^ 24 % 256, tli / 2 ^ 16 % 256, tli / 2 ^ 8 % 256, tli % 256,
   lsn / 2 ^ 56 % 256, lsn / 2 ^ 48 % 256, lsn / 2 ^ 40 % 256, lsn / 2 ^ 32 % 256,
   lsn / 2 ^ 24 % 256, lsn / 2 ^ 16 % 256, lsn / 2 ^ 8 % 256, lsn % 256]

/-! ## The page header field `xlp_info`

`XLogPageHeaderData` (access/xlog_internal.h) starts with `uint16 xlp_magic`
followed by `uint16 xlp_info`; `XLogLongPageHeaderData` starts with a member
`std` of that type.  So `xlp_info` is the 16-bit field at bytes 2 and 3 of
either header, read here in little-endian byte order. -/

/-- Load the `uint16` field `xlp_info` of the page header at the base of `m`. -/
def get_xlp_info (m : Mem) : Nat := m 2 % 256 + 256 * (m 3 % 256)

/-- Store `v`, converted to `uint16`, into the field `xlp_info` of the page
header at the base of `m`. -/
def set_xlp_info (m : Mem) (v : Nat) : Mem :=
  fun i => if i = 2 then v % 65536 % 256 else if i = 3 then v % 65536 / 256 else m i

/-- The C operator `~` on an `int` constant, as a 32-bit pattern. -/
def compl32 (x : Nat) : Nat := 0xFFFFFFFF ^^^ (x % 2 ^ 32)

/-! ## What the source takes from elsewhere -/

/-- The constants, macros and functions that `pg_tde_xlog_encrypt.c` uses and
that are declared outside the files under study.  `F` is the state of the file
behind a descriptor, `K` the type of a key. -/
structure XLogEnv (F K : Type) where
  /-- The constant `SizeOfXLogLongPHD`: the size of the long page header. -/
  SizeOfXLogLongPHD : Nat
  /-- The constant `XLP_ENCRYPTED`: a flag mask for `xlp_info`. -/
  XLP_ENCRYPTED : Nat
  /-- The key `GetTdeGlobaleRelationKey(GLOBAL_SPACE_RLOCATOR(XLOG_TDE_OID))`. -/
  key : K
  /-- The macro `PG_TDE_ENCRYPT_DATA(iv, start_offset, data, data_len, out, key)`:
  from the IV, the start offset, the bytes `data[0 .. data_len)` and the key
  to the bytes it stores at `out`. -/
  PG_TDE_ENCRYPT_DATA : List Nat → Nat → List Nat → K → List Nat
  /-- The macro `PG_TDE_DECRYPT_DATA`, with the same arguments. -/
  PG_TDE_DECRYPT_DATA : List Nat → Nat → List Nat → K → List Nat
  /-- The call `pg_pwrite(fd, buf, count, offset)`: the file afterwards and the
  `ssize_t` returned. -/
  pg_pwrite : F → Mem → Nat → Nat → F × Int
  /-- The call `pg_pread(fd, buf, count, offset)`: the buffer afterwards and the
  `ssize_t` returned. -/
  pg_pread : F → Mem → Nat → Nat → Mem × Int

/-- The file-scope variables of `pg_tde_xlog_encrypt.c`. -/
structure TDEState where
  /-- The GUC `static bool EncryptXLog` (`pg_tde.wal_encrypt`). -/
  EncryptXLog : Bool
  /-- The region `TDEXLogEncryptBuf` points to: the scratch buffer. -/
  TDEXLogEncryptBuf : Mem
  /-- The variable `static XLogLongPageHeaderData DecryptCurrentPageHrd`. -/
  DecryptCurrentPageHrd : Mem

/-- The state at process start: statics are zero-initialised and the GUC has
its boot value `false`. -/
def TDEState.boot (scratch : Mem) : TDEState :=
  { EncryptXLog := false, TDEXLogEncryptBuf := scratch, DecryptCurrentPageHrd := fun _ => 0 }

/-! ## The write path -/

/-- The locals of `TDEXLogWriteEncryptedPages` at the call of
`PG_TDE_ENCRYPT_DATA` (source lines 123-148): the scratch buffer after the
header copy, `enc_off`, `enc_size` and `iv_prefix`. -/
structure EncCall where
  /-- The scratch buffer before the cipher stores into it. -/
  scratch : Mem
  /-- The local `enc_off`. -/
  enc_off : Nat
  /-- The local `enc_size`. -/
  enc_size : Nat
  /-- The local `iv_prefix` after `SetXLogPageIVPrefix`. -/
  iv : List Nat
  /-- The second macro argument, `offset + enc_off`. -/
  pos : Nat

/-- Source lines 123-145 of `TDEXLogWriteEncryptedPages`: everything up to the
cipher call. -/
def TDEXLogEncryptArgs {F K : Type} (env : XLogEnv F K) (st : TDEState) (buf : Mem)
    (count offset tli segno : Nat) : EncCall :=
  let iv0 := ivZero
  let enc_off := 0
  let enc_size := count
  let hdr : Mem × Nat × Nat :=
    if offset = 0 then
      let s := memcpy st.TDEXLogEncryptBuf buf env.SizeOfXLogLongPHD
      let s := set_xlp_info s (get_xlp_info s ||| env.XLP_ENCRYPTED)
      (s, env.SizeOfXLogLongPHD, (enc_size + 2 ^ 64 - env.SizeOfXLogLongPHD) % 2 ^ 64)
    else
      (st.TDEXLogEncryptBuf, enc_off, enc_size)
  { scratch := hdr.1, enc_off := hdr.2.1, enc_size := hdr.2.2,
    iv := SetXLogPageIVPrefix tli segno iv0, pos := offset + hdr.2.1 }

/-- The bytes of the scratch buffer when `pg_pwrite` is called (source lines
146-148 applied to the result of `TDEXLogEncryptArgs`). -/
def TDEXLogScratchOut {F K : Type} (env : XLogEnv F K) (st : TDEState) (buf : Mem)
    (count offset tli segno : Nat) : Mem :=
  let c := TDEXLogEncryptArgs env st buf count offset tli segno
  writeAt c.scratch c.enc_off
    (env.PG_TDE_ENCRYPT_DATA c.iv c.pos (readRegion buf c.enc_off c.enc_size) env.key)

/-- Source: `TDEXLogWriteEncryptedPages` (lines 119-151).  Returns the state
afterwards, the file afterwards and the `ssize_t` result. -/
def TDEXLogWriteEncryptedPages {F K : Type} (env : XLogEnv F K) (st : TDEState) (fd : F)
    (buf : Mem) (count offset tli segno : Nat) : TDEState × F × Int :=
  let scratch := TDEXLogScratchOut env st buf count offset tli segno
  let r := env.pg_pwrite fd scratch count offset
  ({ st with TDEXLogEncryptBuf := scratch }, r.1, r.2)

/-- Source: `tdeheap_xlog_seg_write` (lines 160-170), backend build. -/
def tdeheap_xlog_seg_write {F K : Type} (env : XLogEnv F K) (st : TDEState) (fd : F)
    (buf : Mem) (count offset tli segno : Nat) : TDEState × F × Int :=
  if st.EncryptXLog then
    TDEXLogWriteEncryptedPages env st fd buf count offset tli segno
  else
    let r := env.pg_pwrite fd buf count offset
    (st, r.1, r.2)

/-! ## The read path -/

/-- Source: `tdeheap_xlog_seg_read` (lines 175-213).  `buf` is the caller's
buffer before the call; the result is the state afterwards, the caller's buffer
afterwards and the `ssize_t` result. -/
def tdeheap_xlog_seg_read {F K : Type} (env : XLogEnv F K) (st : TDEState) (fd : F)
    (buf : Mem) (count offset tli segno : Nat) : TDEState × Mem × Int :=
  let iv0 := ivZero
  let dec_off := 0
  let r := env.pg_pread fd buf count offset
  let readsz := r.2
  let buf := r.1
  let hdr : Mem × Mem × Nat × Nat :=
    if offset = 0 then
      let curr := memcpy st.DecryptCurrentPageHrd buf env.SizeOfXLogLongPHD
      let buf := set_xlp_info buf (get_xlp_info buf &&& compl32 env.XLP_ENCRYPTED)
      (curr, buf, env.SizeOfXLogLongPHD, (count + 2 ^ 64 - env.SizeOfXLogLongPHD) % 2 ^ 64)
    else
      (st.DecryptCurrentPageHrd, buf, dec_off, count)
  let curr := hdr.1
  let buf := hdr.2.1
  let dec_off := hdr.2.2.1
  let count := hdr.2.2.2
  let buf :=
    if get_xlp_info curr &&& env.XLP_ENCRYPTED ≠ 0 then
      let iv := SetXLogPageIVPrefix tli segno iv0
      writeAt buf dec_off
        (env.PG_TDE_DECRYPT_DATA iv (offset + dec_off) (readRegion buf dec_off count) env.key)
    else buf
  ({ st with DecryptCurrentPageHrd := curr }, buf, readsz)

/-! ## Sizing of the scratch buffer -/

/-- The configuration the sizing functions read: the constant `XLOG_BLCKSZ`
and the `int` variables `NBuffers`, `wal_segment_size`, `XLOGbuffers`. -/
structure XLogConf where
  /-- The constant `XLOG_BLCKSZ`. -/
  XLOG_BLCKSZ : Nat
  /-- The variable `NBuffers`. -/
  NBuffers : Int
  /-- The variable `wal_segment_size`. -/
  wal_segment_size : Int
  /-- The variable `XLOGbuffers` (`wal_buffers`). -/
  XLOGbuffers : Int

/-- Source: `XLOGChooseNumBuffers` (lines 64-75); `int` division truncates. -/
def XLOGChooseNumBuffers (c : XLogConf) : Int :=
  let xbuffers := Int.tdiv c.NBuffers 32
  let xbuffers :=
    if xbuffers > Int.tdiv c.wal_segment_size c.XLOG_BLCKSZ then
      Int.tdiv c.wal_segment_size c.XLOG_BLCKSZ
    else xbuffers
  let xbuffers := if xbuffers < 8 then 8 else xbuffers
  xbuffers

/-- Source: `TDEXLogEncryptBuffSize` (lines 80-87); the product is taken in
`Size`, a 64-bit unsigned type. -/
def TDEXLogEncryptBuffSize (c : XLogConf) : Nat :=
  let xbuffers := if c.XLOGbuffers = -1 then XLOGChooseNumBuffers c else c.XLOGbuffers
  (c.XLOG_BLCKSZ % 2 ^ 64 * (xbuffers % 2 ^ 64).toNat) % 2 ^ 64

/-! ## The write path in one address space

The same code with `buf` and `TDEXLogEncryptBuf` as addresses into one memory,
so that a store through one pointer is seen through the other when the two
regions overlap. -/

/-- The region that starts at address `p`. -/
def regionAt (mem : Mem) (p : Nat) : Mem := fun i => mem (p + i)

/-- The C library call `memcpy(dst, src, n)` between two addresses of one memory. -/
def memcpyAt (mem : Mem) (dst src n : Nat) : Mem :=
  fun a => if dst ≤ a ∧ a < dst + n then mem (src + (a - dst)) else mem a

/-- Store `v`, converted to `uint16`, into the field `xlp_info` of the page
header at address `p`. -/
def set_xlp_info_at (mem : Mem) (p v : Nat) : Mem :=
  fun a => if a = p + 2 then v % 65536 % 256 else if a = p + 3 then v % 65536 / 256 else mem a

/-- Source: `TDEXLogWriteEncryptedPages` (lines 119-151) on one memory.
`TDEXLogEncryptBuf` and `buf` are addresses; the result is the memory
afterwards, the file afterwards and the `ssize_t` result. -/
def TDEXLogWriteEncryptedPages_mem {F K : Type} (env : XLogEnv F K) (mem : Mem)
    (TDEXLogEncryptBuf : Nat) (fd : F) (buf count offset tli segno : Nat) : Mem × F × Int :=
  let iv0 := ivZero
  let enc_off := 0
  let enc_size := count
  let hdr : Mem × Nat × Nat :=
    if offset = 0 then
      let m := memcpyAt mem TDEXLogEncryptBuf buf env.SizeOfXLogLongPHD
      let m := set_xlp_info_at m TDEXLogEncryptBuf
        (get_xlp_info (regionAt m TDEXLogEncryptBuf) ||| env.XLP_ENCRYPTED)
      (m, env.SizeOfXLogLongPHD, (enc_size + 2 ^ 64 - env.SizeOfXLogLongPHD) % 2 ^ 64)
    else
      (mem, enc_off, enc_size)
  let iv := SetXLogPageIVPrefix tli segno iv0
  let mem := writeAt hdr.1 (TDEXLogEncryptBuf + hdr.2.1)
    (env.PG_TDE_ENCRYPT_DATA iv (offset + hdr.2.1)
      (readRegion hdr.1 (buf + hdr.2.1) hdr.2.2) env.key)
  let r := env.pg_pwrite fd (regionAt mem TDEXLogEncryptBuf) count offset
  (mem, r.1, r.2)

/-- Source: `tdeheap_xlog_seg_write` (lines 160-170) on one memory, backend build. -/
def tdeheap_xlog_seg_write_mem {F K : Type} (env : XLogEnv F K) (EncryptXLog : Bool)
    (mem : Mem) (TDEXLogEncryptBuf : Nat) (fd : F) (buf count offset tli segno : Nat) :
    Mem × F × Int :=
  if EncryptXLog then
    TDEXLogWriteEncryptedPages_mem env mem TDEXLogEncryptBuf fd buf count offset tli segno
  else
    let r := env.pg_pwrite fd (regionAt mem buf) count offset
    (mem, r.1, r.2)

/-! ## Write, then read -/

/-- The file left by an encrypting write. -/
def fileAfterWrite {F K : Type} (env : XLogEnv F K) (st : TDEState) (fd : F)
    (buf : Mem) (count offset tli segno : Nat) : F :=
  (TDEXLogWriteEncryptedPages env st fd buf count offset tli segno).2.1

/-- The bytes a raw read of `count` bytes at `offset` finds after an encrypting
write of `count` bytes at `offset`; `buf0` is the reader's buffer beforehand. -/
def diskAfterWrite {F K : Type} (env : XLogEnv F K) (st : TDEState) (fd : F)
    (buf buf0 : Mem) (count offset tli segno : Nat) : Mem :=
  (env.pg_pread (fileAfterWrite env st fd buf count offset tli segno) buf0 count offset).1

/-- Write `buf` with `TDEXLogWriteEncryptedPages` in state `st`, then read the
same byte range with `tdeheap_xlog_seg_read` in state `rd` into a buffer that
held `buf0`. -/
def writeThenRead {F K : Type} (env : XLogEnv F K) (st rd : TDEState) (fd : F)
    (buf buf0 : Mem) (count offset tli segno : Nat) : TDEState × Mem × Int :=
  tdeheap_xlog_seg_read env rd (fileAfterWrite env st fd buf count offset tli segno)
    buf0 count offset tli segno

/-! ## Properties of the collaborators -/

/-- Decrypting what was encrypted under the same IV, position and key gives
the plaintext back. -/
def CipherInverts {F K : Type} (env : XLogEnv F K) : Prop :=
  ∀ (iv : List Nat) (pos : Nat) (data : List Nat),
    env.PG_TDE_DECRYPT_DATA iv pos (env.PG_TDE_ENCRYPT_DATA iv pos data env.key) env.key = data

/-- The cipher stores exactly `data_len` bytes. -/
def CipherKeepsLength {F K : Type} (env : XLogEnv F K) : Prop :=
  ∀ (iv : List Nat) (pos : Nat) (data : List Nat),
    (env.PG_TDE_ENCRYPT_DATA iv pos data env.key).length = data.length ∧
    (env.PG_TDE_DECRYPT_DATA iv pos data env.key).length = data.length

/-- A positional read of `n` bytes at the offset of the last positional write
of `n` bytes returns the bytes written. -/
def ReadsBackWrites {F K : Type} (env : XLogEnv F K) : Prop :=
  ∀ (fd : F) (m : Mem) (n off : Nat) (buf0 : Mem) (i : Nat), i < n →
    (env.pg_pread (env.pg_pwrite fd m n off).1 buf0 n off).1 i = m i

/-- A seekable stream cipher: encrypting `a ++ c` at position `p` equals
encrypting `a` at `p` followed by encrypting `c` at `p + |a|`. -/
def CipherSeekable {F K : Type} (env : XLogEnv F K) : Prop :=
  ∀ (iv : List Nat) (p : Nat) (a c : List Nat),
    env.PG_TDE_ENCRYPT_DATA iv p (a ++ c) env.key =
      env.PG_TDE_ENCRYPT_DATA iv p a env.key ++
        env.PG_TDE_ENCRYPT_DATA iv (p + a.length) c env.key

/-- A positional write of the first `k` bytes at `off` followed by a positional
write of the next `n - k` bytes at `off + k` leaves the file as one positional
write of the `n` bytes at `off` does; only the bytes inside the count matter. -/
def WritesAppend {F K : Type} (env : XLogEnv F K) : Prop :=
  ∀ (fd : F) (m m1 m2 : Mem) (k n off : Nat), k ≤ n →
    (∀ i, i < k → m1 i = m i) → (∀ i, i < n - k → m2 i = m (k + i)) →
    (env.pg_pwrite (env.pg_pwrite fd m1 k off).1 m2 (n - k) (off + k)).1 =
      (env.pg_pwrite fd m n off).1

/-! ## A concrete environment

An in-memory file and a position-keyed XOR stream, used to run the
definitions on concrete inputs. -/

/-- One byte of the demonstration keystream. -/
def ksByte (iv : List Nat) (pos key : Nat) : Nat := (iv.sum + pos + key) % 256

/-- XOR `data` with the keystream starting at position `pos`. -/
def xorStream (iv : List Nat) : Nat → List Nat → Nat → List Nat
  | _, [], _ => []
  | pos, b :: bs, key => (b ^^^ ksByte iv pos key) :: xorStream iv (pos + 1) bs key

/-- A file that stores every byte: `pwrite` stores `count` bytes and returns
`count`; `pread` fills `count` bytes and returns `count`. -/
def memEnv (h flag key : Nat) : XLogEnv Mem Nat :=
  { SizeOfXLogLongPHD := h
    XLP_ENCRYPTED := flag
    key := key
    PG_TDE_ENCRYPT_DATA := xorStream
    PG_TDE_DECRYPT_DATA := xorStream
    pg_pwrite := fun fd buf count offset =>
      (fun i => if offset ≤ i ∧ i < offset + count then buf (i - offset) else fd i, (count : Int))
    pg_pread := fun fd buf count offset =>
      (fun i => if i < count then fd (offset + i) else buf i, (count : Int)) }

/-- The environment of a stock build: 40-byte long header, `XLP_ENCRYPTED = 0x0008`. -/
def pgEnv : XLogEnv Mem Nat := memEnv 40 0x0008 7

/-- A plaintext buffer of well-formed bytes whose header has
`xlp_info = 0x0002` (`XLP_LONG_HEADER`). -/
def demoBuf : Mem := fun i => if i = 2 then 2 else if i = 3 then 0 else (i * 7 + 5) % 256

/-- A backend with WAL encryption on, a scratch buffer full of stale `0xAA`
bytes and the zero-initialised `DecryptCurrentPageHrd`. -/
def demoState : TDEState :=
  { EncryptXLog := true, TDEXLogEncryptBuf := fun _ => 0xAA, DecryptCurrentPageHrd := fun _ => 0 }

/-- An empty segment file. -/
def demoFile : Mem := fun _ => 0

/-- The buffer `demoBuf` with `xlp_info = 0x000A`: the `XLP_ENCRYPTED` bit of a
stock build is already set in the input. -/
def flaggedBuf : Mem := fun i => if i = 2 then 0x0A else demoBuf i

/-- A reader whose `DecryptCurrentPageHrd` holds a header with
`xlp_info = 0x000A`, as captured from the first page of an encrypted segment. -/
def flaggedReader : TDEState :=
  { EncryptXLog := true, TDEXLogEncryptBuf := fun _ => 0
    DecryptCurrentPageHrd := fun i => if i = 2 then 0x0A else 0 }

/-- A backend at process start: WAL encryption off, nothing captured yet. -/
def plainState : TDEState := TDEState.boot (fun _ => 0)

/-- The environment `pgEnv` with a raw read that finds nothing: `pg_pread`
returns 0 and leaves the buffer as it was. -/
def eofEnv : XLogEnv Mem Nat :=
  { pgEnv with pg_pread := fun _ buf _ _ => (buf, 0) }

/-- A configuration with 8 kB pages and `wal_buffers = 4`. -/
def demoConf : XLogConf :=
  { XLOG_BLCKSZ := 8192, NBuffers := 16384, wal_segment_size := 16777216, XLOGbuffers := 4 }

/-- The environment `pgEnv` with raw I/O that fails: `pg_pwrite` and `pg_pread`
return -1 and change nothing. -/
def failEnv : XLogEnv Mem Nat :=
  { pgEnv with pg_pwrite := fun fd _ _ _ => (fd, -1), pg_pread := fun _ buf _ _ => (buf, -1) }

/-- A configuration with 8 kB pages and `wal_buffers = 262144`: the buffer
size, `2 ^ 31` bytes, is larger than `INT_MAX`. -/
def bigConf : XLogConf :=
  { XLOG_BLCKSZ := 8192, NBuffers := 16384, wal_segment_size := 16777216, XLOGbuffers := 262144 }

/-- A memory with stale `0xAA` bytes below address `bufp` and the bytes of
`demoBuf` from `bufp` on. -/
def demoMem (bufp : Nat) : Mem := fun a => if a < bufp then 0xAA else demoBuf (a - bufp)

/-! ## Lemmas: bytes and the IV deriver -/

theorem and_0xFF (x : Nat) : x &&& 0xFF = x % 256 :=
  Nat.and_pow_two_sub_one_eq_mod x 8

theorem SetXLogPageIVPrefix_eq (tli lsn : Nat) (iv : List Nat) (hlen : 12 ≤ iv.length) :
    SetXLogPageIVPrefix tli lsn iv = ivBytes tli lsn ++ iv.drop 12 := by
  match iv, hlen with
  | b0 :: b1 :: b2 :: b3 :: b4 :: b5 :: b6 :: b7 :: b8 :: b9 :: b10 :: b11 :: rest, _ =>
    simp [SetXLogPageIVPrefix, ivBytes, List.set, and_0xFF, Nat.shiftRight_eq_div_pow]

theorem beValue_ivBytes_tli (tli lsn : Nat) (ht : tli < 2 ^ 32) :
    beValue ((ivBytes tli lsn).take 4) = tli := by
  simp only [ivBytes, beValue, List.take, List.foldl]
  omega

theorem beValue_ivBytes_lsn (tli lsn : Nat) (hl : lsn < 2 ^ 64) :
    beValue (((ivBytes tli lsn).drop 4).take 8) = lsn := by
  simp only [ivBytes, beValue, List.take, List.drop, List.foldl]
  omega

/-! ## Lemmas: flag bits of a `uint16` -/

theorem testBit_compl32 (m i : Nat) :
    (compl32 m).testBit i = (decide (i < 32) && !m.testBit i) := by
  have h : (0xFFFFFFFF : Nat) = 2 ^ 32 - 1 := by norm_num
  unfold compl32
  rw [h, Nat.testBit_xor, Nat.testBit_two_pow_sub_one, Nat.testBit_mod_two_pow]
  cases decide (i < 32) <;> cases m.testBit i <;> rfl

theorem testBit_mod_65536 (x i : Nat) :
    (x % 65536).testBit i = (decide (i < 16) && x.testBit i) := by
  have h : (65536 : Nat) = 2 ^ 16 := by norm_num
  rw [h, Nat.testBit_mod_two_pow]

theorem lt16_lt32 (i : Nat) (h : decide (i < 16) = true) : decide (i < 32) = true := by
  simp at h ⊢; omega

/-- Clearing a flag leaves none of its bits. -/
theorem clear_and_flag (x m : Nat) : (x &&& compl32 m) % 65536 &&& m = 0 := by
  apply Nat.eq_of_testBit_eq
  intro i
  simp only [Nat.testBit_and, testBit_mod_65536, testBit_compl32, Nat.zero_testBit]
  cases decide (i < 16) <;> cases decide (i < 32) <;> cases x.testBit i <;> cases m.testBit i <;> rfl

/-- Clearing a flag that is clear changes nothing. -/
theorem clear_of_clear (x m : Nat) (hx : x < 65536) (h : x &&& m = 0) :
    (x &&& compl32 m) % 65536 = x := by
  apply Nat.eq_of_testBit_eq
  intro i
  have hb := congrArg (fun t => t.testBit i) h
  simp only [Nat.testBit_and, Nat.zero_testBit] at hb
  have hx2 : x % 65536 = x := Nat.mod_eq_of_lt hx
  have hxi := testBit_mod_65536 x i
  rw [hx2] at hxi
  simp only [Nat.testBit_and, testBit_mod_65536, testBit_compl32]
  by_cases h16 : i < 16
  · have h32 : i < 32 := by omega
    simp only [h16, h32, decide_True, Bool.true_and]
    revert hb; cases x.testBit i <;> cases m.testBit i <;> simp
  · simp only [h16, decide_False, Bool.false_and] at hxi ⊢
    exact hxi.symm

/-- Setting a flag and clearing it again clears it in the original value. -/
theorem set_then_clear (x m : Nat) :
    ((x ||| m) % 65536 &&& compl32 m) % 65536 = (x &&& compl32 m) % 65536 := by
  apply Nat.eq_of_testBit_eq
  intro i
  simp only [Nat.testBit_and, Nat.testBit_or, testBit_mod_65536, testBit_compl32]
  cases decide (i < 16) <;> cases decide (i < 32) <;> cases x.testBit i <;> cases m.testBit i <;> rfl

/-- A flag that fits `uint16` is present after it has been set. -/
theorem set_and_flag (x m : Nat) (hm : m < 65536) : (x ||| m) % 65536 &&& m = m := by
  apply Nat.eq_of_testBit_eq
  intro i
  have hm2 : m % 65536 = m := Nat.mod_eq_of_lt hm
  have hmi := testBit_mod_65536 m i
  rw [hm2] at hmi
  simp only [Nat.testBit_and, Nat.testBit_or, testBit_mod_65536]
  by_cases h16 : i < 16
  · simp only [h16, decide_True, Bool.true_and]
    cases x.testBit i <;> cases m.testBit i <;> rfl
  · simp only [h16, decide_False, Bool.false_and] at hmi ⊢
    exact hmi.symm

/-! ## Lemmas: memory regions -/

theorem readRegion_length (m : Mem) (off n : Nat) : (readRegion m off n).length = n := by
  simp [readRegion]

theorem readRegion_getD (m : Mem) (off n i : Nat) (hi : i < n) :
    (readRegion m off n).getD i 0 = m (off + i) := by
  have hlen : i < (readRegion m off n).length := by rw [readRegion_length]; exact hi
  rw [List.getD_eq_getElem _ _ hlen]
  simp [readRegion]

theorem readRegion_congr (m m' : Mem) (off n : Nat)
    (h : ∀ i, i < n → m (off + i) = m' (off + i)) :
    readRegion m off n = readRegion m' off n := by
  unfold readRegion
  apply List.map_congr_left
  intro i hi
  exact h i (List.mem_range.mp hi)

theorem writeAt_below (dst : Mem) (off : Nat) (out : List Nat) (i : Nat) (hi : i < off) :
    writeAt dst off out i = dst i := by
  unfold writeAt
  rw [if_neg]
  omega

theorem writeAt_above (dst : Mem) (off : Nat) (out : List Nat) (i : Nat)
    (hi : off + out.length ≤ i) : writeAt dst off out i = dst i := by
  unfold writeAt
  rw [if_neg]
  omega

theorem writeAt_inside (dst : Mem) (off : Nat) (out : List Nat) (i : Nat)
    (h1 : off ≤ i) (h2 : i < off + out.length) :
    writeAt dst off out i = out.getD (i - off) 0 := by
  unfold writeAt
  rw [if_pos ⟨h1, h2⟩]

theorem writeAt_readRegion (dst b : Mem) (off n i : Nat) (h1 : off ≤ i) (h2 : i < off + n) :
    writeAt dst off (readRegion b off n) i = b i := by
  rw [writeAt_inside dst off _ i h1 (by rw [readRegion_length]; exact h2),
    readRegion_getD b off n (i - off) (by omega)]
  congr 1
  omega

theorem memcpy_below (dst src : Mem) (n i : Nat) (hi : i < n) : memcpy dst src n i = src i := by
  simp [memcpy, hi]

theorem memcpy_above (dst src : Mem) (n i : Nat) (hi : n ≤ i) : memcpy dst src n i = dst i := by
  unfold memcpy
  rw [if_neg]
  omega

theorem get_xlp_info_lt (m : Mem) : get_xlp_info m < 65536 := by
  unfold get_xlp_info
  omega

theorem get_xlp_info_congr (m m' : Mem) (h2 : m 2 = m' 2) (h3 : m 3 = m' 3) :
    get_xlp_info m = get_xlp_info m' := by
  unfold get_xlp_info
  rw [h2, h3]

theorem get_set_xlp_info (m : Mem) (v : Nat) : get_xlp_info (set_xlp_info m v) = v % 65536 := by
  simp only [get_xlp_info, set_xlp_info]
  simp
  omega

theorem set_xlp_info_other (m : Mem) (v i : Nat) (h2 : i ≠ 2) (h3 : i ≠ 3) :
    set_xlp_info m v i = m i := by
  simp [set_xlp_info, h2, h3]

/-- Storing back the value of `xlp_info` leaves well-formed header bytes as they are. -/
theorem set_get_xlp_info (m : Mem) (v : Nat) (hv : v = get_xlp_info m)
    (h2 : m 2 < 256) (h3 : m 3 < 256) (i : Nat) : set_xlp_info m v i = m i := by
  subst hv
  simp only [get_xlp_info, set_xlp_info]
  split
  · subst i; omega
  · split
    · subst i; omega
    · rfl

theorem set_xlp_info_lt (m : Mem) (v i : Nat) (hm : m i < 256) : set_xlp_info m v i < 256 := by
  simp only [set_xlp_info]
  split
  · omega
  · split
    · omega
    · exact hm

/-! ## The IV deriver: layout and injectivity -/

theorem ivBytes_length (tli lsn : Nat) : (ivBytes tli lsn).length = 12 := rfl

theorem SetXLogPageIVPrefix_take12 (tli lsn : Nat) (iv : List Nat) (hlen : 12 ≤ iv.length) :
    (SetXLogPageIVPrefix tli lsn iv).take 12 = ivBytes tli lsn := by
  rw [SetXLogPageIVPrefix_eq tli lsn iv hlen]
  exact List.take_left' (ivBytes_length tli lsn)

theorem ivBytes_injective (t1 p1 t2 p2 : Nat) (ht1 : t1 < 2 ^ 32) (hp1 : p1 < 2 ^ 64)
    (ht2 : t2 < 2 ^ 32) (hp2 : p2 < 2 ^ 64) (h : ivBytes t1 p1 = ivBytes t2 p2) :
    t1 = t2 ∧ p1 = p2 := by
  constructor
  · rw [← beValue_ivBytes_tli t1 p1 ht1, ← beValue_ivBytes_tli t2 p2 ht2, h]
  · rw [← beValue_ivBytes_lsn t1 p1 hp1, ← beValue_ivBytes_lsn t2 p2 hp2, h]

/-- C4: `SetXLogPageIVPrefix(tli, lsn, iv)` stores the 32-bit timeline big-endian
in `iv[0..4)` and the 64-bit position big-endian in `iv[4..12)`: read back as
big-endian unsigned integers the two groups give `tli` and `lsn`; the array
keeps its length and no byte at index 12 or above is written. -/
theorem SetXLogPageIVPrefix_big_endian (tli lsn : Nat) (iv : List Nat)
    (ht : tli < 2 ^ 32) (hl : lsn < 2 ^ 64) (hlen : 12 ≤ iv.length) :
    beValue ((SetXLogPageIVPrefix tli lsn iv).take 4) = tli ∧
    beValue (((SetXLogPageIVPrefix tli lsn iv).drop 4).take 8) = lsn ∧
    (SetXLogPageIVPrefix tli lsn iv).length = iv.length ∧
    ∀ i, 12 ≤ i → (SetXLogPageIVPrefix tli lsn iv)[i]? = iv[i]? := by
  rw [SetXLogPageIVPrefix_eq tli lsn iv hlen]
  refine ⟨?_, ?_, ?_, ?_⟩
  · have h := beValue_ivBytes_tli tli lsn ht
    simpa [ivBytes] using h
  · have h := beValue_ivBytes_lsn tli lsn hl
    simpa [ivBytes] using h
  · simp [ivBytes_length]
    omega
  · intro i hi
    rw [List.getElem?_append_right (by rw [ivBytes_length]; exact hi), ivBytes_length,
      List.getElem?_drop]
    congr 1
    omega

/-- Witness for C4 on the array the callers pass, `char iv_prefix[16] = {0,}`. -/
theorem SetXLogPageIVPrefix_big_endian_witness :
    beValue ((SetXLogPageIVPrefix 0x01020304 0x05060708090A0B0C ivZero).take 4) = 0x01020304 ∧
    beValue (((SetXLogPageIVPrefix 0x01020304 0x05060708090A0B0C ivZero).drop 4).take 8)
      = 0x05060708090A0B0C ∧
    (SetXLogPageIVPrefix 0x01020304 0x05060708090A0B0C ivZero).length = ivZero.length ∧
    ∀ i, 12 ≤ i → (SetXLogPageIVPrefix 0x01020304 0x05060708090A0B0C ivZero)[i]? = ivZero[i]? :=
  SetXLogPageIVPrefix_big_endian 0x01020304 0x05060708090A0B0C ivZero
    (by decide) (by decide) (by decide)

/-- C5: the 12-byte prefix derived by `SetXLogPageIVPrefix` is a deterministic,
injective function of (timeline, position): for 32-bit timelines and 64-bit
positions two derived prefixes are equal if and only if both the timelines and
the positions are equal. -/
theorem SetXLogPageIVPrefix_injective (t1 p1 t2 p2 : Nat) (iv1 iv2 : List Nat)
    (ht1 : t1 < 2 ^ 32) (hp1 : p1 < 2 ^ 64) (ht2 : t2 < 2 ^ 32) (hp2 : p2 < 2 ^ 64)
    (hlen1 : 12 ≤ iv1.length) (hlen2 : 12 ≤ iv2.length) :
    (SetXLogPageIVPrefix t1 p1 iv1).take 12 = (SetXLogPageIVPrefix t2 p2 iv2).take 12
      ↔ t1 = t2 ∧ p1 = p2 := by
  rw [SetXLogPageIVPrefix_take12 t1 p1 iv1 hlen1, SetXLogPageIVPrefix_take12 t2 p2 iv2 hlen2]
  constructor
  · exact ivBytes_injective t1 p1 t2 p2 ht1 hp1 ht2 hp2
  · rintro ⟨rfl, rfl⟩
    rfl

/-- Witness for C5: timelines 1 and 2 at the same position give different prefixes. -/
theorem SetXLogPageIVPrefix_injective_witness :
    (SetXLogPageIVPrefix 1 5 ivZero).take 12 = (SetXLogPageIVPrefix 2 5 ivZero).take 12
      ↔ 1 = 2 ∧ 5 = 5 :=
  SetXLogPageIVPrefix_injective 1 5 2 5 ivZero ivZero
    (by decide) (by decide) (by decide) (by decide) (by decide) (by decide)

/-! ## The write path: what reaches the cipher and the raw write -/

theorem size_sub (count h : Nat) (h1 : h ≤ count) (h2 : count < 2 ^ 64) :
    (count + 2 ^ 64 - h) % 2 ^ 64 = count - h := by
  omega

theorem encArgs_first {F K : Type} (env : XLogEnv F K) (st : TDEState) (buf : Mem)
    (count tli segno : Nat) :
    TDEXLogEncryptArgs env st buf count 0 tli segno =
      { scratch := set_xlp_info (memcpy st.TDEXLogEncryptBuf buf env.SizeOfXLogLongPHD)
          (get_xlp_info (memcpy st.TDEXLogEncryptBuf buf env.SizeOfXLogLongPHD)
            ||| env.XLP_ENCRYPTED)
        enc_off := env.SizeOfXLogLongPHD
        enc_size := (count + 2 ^ 64 - env.SizeOfXLogLongPHD) % 2 ^ 64
        iv := SetXLogPageIVPrefix tli segno ivZero
        pos := env.SizeOfXLogLongPHD } := by
  simp [TDEXLogEncryptArgs]

theorem encArgs_later {F K : Type} (env : XLogEnv F K) (st : TDEState) (buf : Mem)
    (count offset tli segno : Nat) (hoff : offset ≠ 0) :
    TDEXLogEncryptArgs env st buf count offset tli segno =
      { scratch := st.TDEXLogEncryptBuf
        enc_off := 0
        enc_size := count
        iv := SetXLogPageIVPrefix tli segno ivZero
        pos := offset } := by
  simp [TDEXLogEncryptArgs, hoff]

/-- The header bytes of the scratch buffer at the raw write of a first page are
those placed by the header copy and the flag store. -/
theorem scratchOut_first_lo {F K : Type} (env : XLogEnv F K) (st : TDEState) (buf : Mem)
    (count tli segno i : Nat) (h4 : 4 ≤ env.SizeOfXLogLongPHD)
    (hi : i < env.SizeOfXLogLongPHD) :
    TDEXLogScratchOut env st buf count 0 tli segno i =
      set_xlp_info (memcpy st.TDEXLogEncryptBuf buf env.SizeOfXLogLongPHD)
        (get_xlp_info buf ||| env.XLP_ENCRYPTED) i := by
  unfold TDEXLogScratchOut
  rw [encArgs_first]
  simp only
  rw [writeAt_below _ _ _ _ hi]
  rw [get_xlp_info_congr (memcpy st.TDEXLogEncryptBuf buf env.SizeOfXLogLongPHD) buf
    (memcpy_below _ _ _ _ (by omega)) (memcpy_below _ _ _ _ (by omega))]

theorem scratchOut_first_info {F K : Type} (env : XLogEnv F K) (st : TDEState) (buf : Mem)
    (count tli segno : Nat) (h4 : 4 ≤ env.SizeOfXLogLongPHD) :
    get_xlp_info (TDEXLogScratchOut env st buf count 0 tli segno) =
      (get_xlp_info buf ||| env.XLP_ENCRYPTED) % 65536 := by
  rw [get_xlp_info_congr _ _
    (scratchOut_first_lo env st buf count tli segno 2 h4 (by omega))
    (scratchOut_first_lo env st buf count tli segno 3 h4 (by omega))]
  exact get_set_xlp_info _ _

theorem scratchOut_first_other {F K : Type} (env : XLogEnv F K) (st : TDEState) (buf : Mem)
    (count tli segno i : Nat) (h4 : 4 ≤ env.SizeOfXLogLongPHD)
    (hi : i < env.SizeOfXLogLongPHD) (h2 : i ≠ 2) (h3 : i ≠ 3) :
    TDEXLogScratchOut env st buf count 0 tli segno i = buf i := by
  rw [scratchOut_first_lo env st buf count tli segno i h4 hi, set_xlp_info_other _ _ _ h2 h3,
    memcpy_below _ _ _ _ hi]

/-- The body bytes of the scratch buffer at the raw write of a first page are
the cipher output for the input bytes after the header. -/
theorem scratchOut_first_hi {F K : Type} (env : XLogEnv F K) (st : TDEState) (buf : Mem)
    (count tli segno i : Nat) (hlen : CipherKeepsLength env)
    (hc : env.SizeOfXLogLongPHD ≤ count) (hc64 : count < 2 ^ 64)
    (h1 : env.SizeOfXLogLongPHD ≤ i) (h2 : i < count) :
    TDEXLogScratchOut env st buf count 0 tli segno i =
      (env.PG_TDE_ENCRYPT_DATA (SetXLogPageIVPrefix tli segno ivZero) env.SizeOfXLogLongPHD
        (readRegion buf env.SizeOfXLogLongPHD (count - env.SizeOfXLogLongPHD)) env.key).getD
        (i - env.SizeOfXLogLongPHD) 0 := by
  unfold TDEXLogScratchOut
  rw [encArgs_first]
  simp only
  rw [size_sub count _ hc hc64]
  apply writeAt_inside _ _ _ _ h1
  rw [(hlen _ _ _).1, readRegion_length]
  omega

/-- Away from the segment start the scratch buffer at the raw write is the
cipher output for the whole input. -/
theorem scratchOut_later {F K : Type} (env : XLogEnv F K) (st : TDEState) (buf : Mem)
    (count offset tli segno i : Nat) (hlen : CipherKeepsLength env)
    (hoff : offset ≠ 0) (h2 : i < count) :
    TDEXLogScratchOut env st buf count offset tli segno i =
      (env.PG_TDE_ENCRYPT_DATA (SetXLogPageIVPrefix tli segno ivZero) offset
        (readRegion buf 0 count) env.key).getD i 0 := by
  unfold TDEXLogScratchOut
  rw [encArgs_later env st buf count offset tli segno hoff]
  simp only
  rw [writeAt_inside _ _ _ _ (Nat.zero_le i)
    (by rw [(hlen _ _ _).1, readRegion_length]; omega)]
  rfl

/-- The scratch buffer is untouched from index `count` on when the write fits
`size_t` arithmetic. -/
theorem scratchOut_beyond {F K : Type} (env : XLogEnv F K) (st : TDEState) (buf : Mem)
    (count offset tli segno i : Nat) (hlen : CipherKeepsLength env)
    (hc : offset = 0 → env.SizeOfXLogLongPHD ≤ count) (h4 : 4 ≤ env.SizeOfXLogLongPHD)
    (hc64 : count < 2 ^ 64) (hi : count ≤ i) :
    TDEXLogScratchOut env st buf count offset tli segno i = st.TDEXLogEncryptBuf i := by
  unfold TDEXLogScratchOut
  by_cases hoff : offset = 0
  · subst hoff
    have hc0 := hc rfl
    rw [encArgs_first]
    simp only
    rw [size_sub count _ hc0 hc64]
    rw [writeAt_above _ _ _ _ (by rw [(hlen _ _ _).1, readRegion_length]; omega)]
    rw [set_xlp_info_other _ _ _ (by omega) (by omega), memcpy_above _ _ _ _ (by omega)]
  · rw [encArgs_later env st buf count offset tli segno hoff]
    simp only
    rw [writeAt_above _ _ _ _ (by rw [(hlen _ _ _).1, readRegion_length]; omega)]

/-! ## C3: the header stays plaintext -/

theorem or_lt_65536 (a b : Nat) (ha : a < 65536) (hb : b < 65536) : a ||| b < 65536 := by
  have h : (65536 : Nat) = 2 ^ 16 := by norm_num
  rw [h] at ha hb ⊢
  exact Nat.or_lt_two_pow ha hb

/-- C3: for an encrypting write at offset 0, the buffer handed to the raw
write holds in its first `SizeOfXLogLongPHD` bytes the plaintext header with
the `XLP_ENCRYPTED` bit of `xlp_info` set and nothing else changed: every header
byte outside `xlp_info` equals the input byte, `xlp_info` is the input value
with the flag or-ed in, and the cipher region starts after the header, so the
cipher stores nothing into the header bytes. -/
theorem header_plaintext_invariant {F K : Type} (env : XLogEnv F K) (st : TDEState) (fd : F)
    (buf : Mem) (count tli segno : Nat)
    (h4 : 4 ≤ env.SizeOfXLogLongPHD) (hflag : env.XLP_ENCRYPTED < 65536)
    (hc : env.SizeOfXLogLongPHD ≤ count) (hc64 : count < 2 ^ 64) :
    ∃ out : Mem,
      TDEXLogWriteEncryptedPages env st fd buf count 0 tli segno =
        ({ st with TDEXLogEncryptBuf := out },
          (env.pg_pwrite fd out count 0).1, (env.pg_pwrite fd out count 0).2) ∧
      (∀ i, i < env.SizeOfXLogLongPHD → i ≠ 2 → i ≠ 3 → out i = buf i) ∧
      get_xlp_info out = get_xlp_info buf ||| env.XLP_ENCRYPTED ∧
      get_xlp_info out &&& env.XLP_ENCRYPTED = env.XLP_ENCRYPTED ∧
      (get_xlp_info out &&& compl32 env.XLP_ENCRYPTED) % 65536 =
        (get_xlp_info buf &&& compl32 env.XLP_ENCRYPTED) % 65536 ∧
      (TDEXLogEncryptArgs env st buf count 0 tli segno).enc_off = env.SizeOfXLogLongPHD ∧
      (TDEXLogEncryptArgs env st buf count 0 tli segno).enc_size =
        count - env.SizeOfXLogLongPHD ∧
      (∀ i, i < env.SizeOfXLogLongPHD →
        out i = (TDEXLogEncryptArgs env st buf count 0 tli segno).scratch i) := by
  have hinfo := scratchOut_first_info env st buf count tli segno h4
  have hlt := or_lt_65536 _ _ (get_xlp_info_lt buf) hflag
  refine ⟨TDEXLogScratchOut env st buf count 0 tli segno, rfl, ?_, ?_, ?_, ?_, ?_, ?_, ?_⟩
  · intro i hi h2 h3
    exact scratchOut_first_other env st buf count tli segno i h4 hi h2 h3
  · rw [hinfo, Nat.mod_eq_of_lt hlt]
  · rw [hinfo]
    exact set_and_flag _ _ hflag
  · rw [hinfo]
    exact set_then_clear _ _
  · rw [encArgs_first]
  · rw [encArgs_first]
    exact size_sub count _ hc hc64
  · intro i hi
    unfold TDEXLogScratchOut
    rw [encArgs_first]
    exact writeAt_below _ _ _ _ hi

/-- Witness for C3: three 8 kB pages written at offset 0 of segment 0 on timeline 1. -/
theorem header_plaintext_invariant_witness :
    ∃ out : Mem,
      TDEXLogWriteEncryptedPages pgEnv demoState demoFile demoBuf 24576 0 1 0 =
        ({ demoState with TDEXLogEncryptBuf := out },
          (pgEnv.pg_pwrite demoFile out 24576 0).1, (pgEnv.pg_pwrite demoFile out 24576 0).2) ∧
      (∀ i, i < pgEnv.SizeOfXLogLongPHD → i ≠ 2 → i ≠ 3 → out i = demoBuf i) ∧
      get_xlp_info out = get_xlp_info demoBuf ||| pgEnv.XLP_ENCRYPTED ∧
      get_xlp_info out &&& pgEnv.XLP_ENCRYPTED = pgEnv.XLP_ENCRYPTED ∧
      (get_xlp_info out &&& compl32 pgEnv.XLP_ENCRYPTED) % 65536 =
        (get_xlp_info demoBuf &&& compl32 pgEnv.XLP_ENCRYPTED) % 65536 ∧
      (TDEXLogEncryptArgs pgEnv demoState demoBuf 24576 0 1 0).enc_off
        = pgEnv.SizeOfXLogLongPHD ∧
      (TDEXLogEncryptArgs pgEnv demoState demoBuf 24576 0 1 0).enc_size =
        24576 - pgEnv.SizeOfXLogLongPHD ∧
      (∀ i, i < pgEnv.SizeOfXLogLongPHD →
        out i = (TDEXLogEncryptArgs pgEnv demoState demoBuf 24576 0 1 0).scratch i) :=
  header_plaintext_invariant pgEnv demoState demoFile demoBuf 24576 1 0
    (by decide) (by decide) (by decide) (by decide)


/-! ## The read path, unfolded -/

theorem list_eq_of_getD (l1 l2 : List Nat) (hlen : l1.length = l2.length)
    (h : ∀ i, i < l1.length → l1.getD i 0 = l2.getD i 0) : l1 = l2 := by
  apply List.ext_getElem hlen
  intro n h1 h2
  have := h n h1
  rwa [List.getD_eq_getElem _ _ h1, List.getD_eq_getElem _ _ h2] at this

/-- The read path returns the result of the raw read. -/
theorem seg_read_result {F K : Type} (env : XLogEnv F K) (st : TDEState) (fd : F) (buf : Mem)
    (count offset tli segno : Nat) :
    (tdeheap_xlog_seg_read env st fd buf count offset tli segno).2.2 =
      (env.pg_pread fd buf count offset).2 := rfl

/-- At offset 0 the Decrypt Context receives the header bytes as read. -/
theorem seg_read_first_ctx {F K : Type} (env : XLogEnv F K) (st : TDEState) (fd : F) (buf : Mem)
    (count tli segno : Nat) :
    (tdeheap_xlog_seg_read env st fd buf count 0 tli segno).1 =
      { st with DecryptCurrentPageHrd :=
          (memcpy st.DecryptCurrentPageHrd (env.pg_pread fd buf count 0).1
            env.SizeOfXLogLongPHD) } := by
  simp [tdeheap_xlog_seg_read]

/-- Away from offset 0 the state is left as it was. -/
theorem seg_read_later_ctx {F K : Type} (env : XLogEnv F K) (st : TDEState) (fd : F) (buf : Mem)
    (count offset tli segno : Nat) (hoff : offset ≠ 0) :
    (tdeheap_xlog_seg_read env st fd buf count offset tli segno).1 = st := by
  simp [tdeheap_xlog_seg_read, hoff]

/-- The buffer returned by a read at offset 0. -/
theorem seg_read_first_buf {F K : Type} (env : XLogEnv F K) (st : TDEState) (fd : F) (buf : Mem)
    (count tli segno : Nat) (h4 : 4 ≤ env.SizeOfXLogLongPHD) :
    (tdeheap_xlog_seg_read env st fd buf count 0 tli segno).2.1 =
      if get_xlp_info (env.pg_pread fd buf count 0).1 &&& env.XLP_ENCRYPTED ≠ 0 then
        writeAt
          (set_xlp_info (env.pg_pread fd buf count 0).1
            (get_xlp_info (env.pg_pread fd buf count 0).1 &&& compl32 env.XLP_ENCRYPTED))
          env.SizeOfXLogLongPHD
          (env.PG_TDE_DECRYPT_DATA (SetXLogPageIVPrefix tli segno ivZero) env.SizeOfXLogLongPHD
            (readRegion
              (set_xlp_info (env.pg_pread fd buf count 0).1
                (get_xlp_info (env.pg_pread fd buf count 0).1 &&& compl32 env.XLP_ENCRYPTED))
              env.SizeOfXLogLongPHD ((count + 2 ^ 64 - env.SizeOfXLogLongPHD) % 2 ^ 64))
            env.key)
      else
        set_xlp_info (env.pg_pread fd buf count 0).1
          (get_xlp_info (env.pg_pread fd buf count 0).1 &&& compl32 env.XLP_ENCRYPTED) := by
  have hctx : get_xlp_info (memcpy st.DecryptCurrentPageHrd (env.pg_pread fd buf count 0).1
      env.SizeOfXLogLongPHD) = get_xlp_info (env.pg_pread fd buf count 0).1 :=
    get_xlp_info_congr _ _ (memcpy_below _ _ _ _ (by omega)) (memcpy_below _ _ _ _ (by omega))
  simp only [tdeheap_xlog_seg_read, if_true, hctx, Nat.zero_add]

/-- The buffer returned by a read away from offset 0. -/
theorem seg_read_later_buf {F K : Type} (env : XLogEnv F K) (st : TDEState) (fd : F) (buf : Mem)
    (count offset tli segno : Nat) (hoff : offset ≠ 0) :
    (tdeheap_xlog_seg_read env st fd buf count offset tli segno).2.1 =
      if get_xlp_info st.DecryptCurrentPageHrd &&& env.XLP_ENCRYPTED ≠ 0 then
        writeAt (env.pg_pread fd buf count offset).1 0
          (env.PG_TDE_DECRYPT_DATA (SetXLogPageIVPrefix tli segno ivZero) offset
            (readRegion (env.pg_pread fd buf count offset).1 0 count) env.key)
      else (env.pg_pread fd buf count offset).1 := by
  simp only [tdeheap_xlog_seg_read, if_neg hoff, Nat.add_zero]

/-! ## Write, then read: the bytes on the way -/

/-- With raw I/O that reads back what was written, the raw read after an
encrypting write finds the scratch buffer as it was handed to the raw write. -/
theorem disk_eq_scratchOut {F K : Type} (env : XLogEnv F K) (st : TDEState) (fd : F)
    (buf buf0 : Mem) (count offset tli segno i : Nat) (hio : ReadsBackWrites env)
    (hi : i < count) :
    diskAfterWrite env st fd buf buf0 count offset tli segno i =
      TDEXLogScratchOut env st buf count offset tli segno i :=
  hio fd (TDEXLogScratchOut env st buf count offset tli segno) count offset buf0 i hi

/-- The body of a first page on disk is the ciphertext of the input body. -/
theorem disk_first_body {F K : Type} (env : XLogEnv F K) (st : TDEState) (fd : F)
    (buf buf0 : Mem) (count tli segno : Nat) (hio : ReadsBackWrites env)
    (hlen : CipherKeepsLength env) (hc : env.SizeOfXLogLongPHD ≤ count) (hc64 : count < 2 ^ 64) :
    readRegion (diskAfterWrite env st fd buf buf0 count 0 tli segno) env.SizeOfXLogLongPHD
        (count - env.SizeOfXLogLongPHD) =
      env.PG_TDE_ENCRYPT_DATA (SetXLogPageIVPrefix tli segno ivZero) env.SizeOfXLogLongPHD
        (readRegion buf env.SizeOfXLogLongPHD (count - env.SizeOfXLogLongPHD)) env.key := by
  apply list_eq_of_getD
  · rw [readRegion_length, (hlen _ _ _).1, readRegion_length]
  · intro i hi
    rw [readRegion_length] at hi
    rw [readRegion_getD _ _ _ _ hi,
      disk_eq_scratchOut env st fd buf buf0 count 0 tli segno _ hio (by omega),
      scratchOut_first_hi env st buf count tli segno _ hlen hc hc64 (by omega) (by omega)]
    congr 1
    omega

/-- Away from the segment start the bytes on disk are the ciphertext of the input. -/
theorem disk_later_body {F K : Type} (env : XLogEnv F K) (st : TDEState) (fd : F)
    (buf buf0 : Mem) (count offset tli segno : Nat) (hio : ReadsBackWrites env)
    (hlen : CipherKeepsLength env) (hoff : offset ≠ 0) :
    readRegion (diskAfterWrite env st fd buf buf0 count offset tli segno) 0 count =
      env.PG_TDE_ENCRYPT_DATA (SetXLogPageIVPrefix tli segno ivZero) offset
        (readRegion buf 0 count) env.key := by
  apply list_eq_of_getD
  · rw [readRegion_length, (hlen _ _ _).1, readRegion_length]
  · intro i hi
    rw [readRegion_length] at hi
    rw [readRegion_getD _ _ _ _ hi, Nat.zero_add,
      disk_eq_scratchOut env st fd buf buf0 count offset tli segno _ hio hi,
      scratchOut_later env st buf count offset tli segno _ hlen hoff hi]

/-- The header on disk after a first-page write carries `xlp_info` with the flag set. -/
theorem disk_first_info {F K : Type} (env : XLogEnv F K) (st : TDEState) (fd : F)
    (buf buf0 : Mem) (count tli segno : Nat) (hio : ReadsBackWrites env)
    (h4 : 4 ≤ env.SizeOfXLogLongPHD) (hc : env.SizeOfXLogLongPHD ≤ count) :
    get_xlp_info (diskAfterWrite env st fd buf buf0 count 0 tli segno) =
      (get_xlp_info buf ||| env.XLP_ENCRYPTED) % 65536 := by
  rw [get_xlp_info_congr _ _
    (disk_eq_scratchOut env st fd buf buf0 count 0 tli segno 2 hio (by omega))
    (disk_eq_scratchOut env st fd buf buf0 count 0 tli segno 3 hio (by omega))]
  exact scratchOut_first_info env st buf count tli segno h4

/-- Away from the segment start, a reader whose Decrypt Context has the flag
gets the plaintext back. -/
theorem roundtrip_later {F K : Type} (env : XLogEnv F K) (st rd : TDEState) (fd : F)
    (buf buf0 : Mem) (count offset tli segno i : Nat)
    (hinv : CipherInverts env) (hlen : CipherKeepsLength env) (hio : ReadsBackWrites env)
    (hoff : offset ≠ 0)
    (hctx : get_xlp_info rd.DecryptCurrentPageHrd &&& env.XLP_ENCRYPTED ≠ 0)
    (hi : i < count) :
    (writeThenRead env st rd fd buf buf0 count offset tli segno).2.1 i = buf i := by
  unfold writeThenRead
  rw [seg_read_later_buf env rd _ buf0 count offset tli segno hoff, if_pos hctx]
  have hd := disk_later_body env st fd buf buf0 count offset tli segno hio hlen hoff
  unfold diskAfterWrite at hd
  rw [hd, hinv]
  exact writeAt_readRegion _ buf 0 count i (Nat.zero_le i) (by omega)

/-- Away from the segment start, a reader whose Decrypt Context lacks the flag
gets the bytes on disk. -/
theorem roundtrip_later_raw {F K : Type} (env : XLogEnv F K) (st rd : TDEState) (fd : F)
    (buf buf0 : Mem) (count offset tli segno : Nat) (hoff : offset ≠ 0)
    (hctx : get_xlp_info rd.DecryptCurrentPageHrd &&& env.XLP_ENCRYPTED = 0) :
    (writeThenRead env st rd fd buf buf0 count offset tli segno).2.1 =
      diskAfterWrite env st fd buf buf0 count offset tli segno := by
  unfold writeThenRead
  rw [seg_read_later_buf env rd _ buf0 count offset tli segno hoff, if_neg (by simpa using hctx)]
  rfl
/-- The reader of a first page written by the encrypting path sees the flag on disk. -/
theorem disk_first_flag {F K : Type} (env : XLogEnv F K) (st : TDEState) (fd : F)
    (buf buf0 : Mem) (count tli segno : Nat) (hio : ReadsBackWrites env)
    (h4 : 4 ≤ env.SizeOfXLogLongPHD) (hc : env.SizeOfXLogLongPHD ≤ count)
    (hflag : env.XLP_ENCRYPTED < 65536) :
    get_xlp_info (diskAfterWrite env st fd buf buf0 count 0 tli segno) &&& env.XLP_ENCRYPTED =
      env.XLP_ENCRYPTED := by
  rw [disk_first_info env st fd buf buf0 count tli segno hio h4 hc]
  exact set_and_flag _ _ hflag

/-- After a first-page write the body comes back as plaintext. -/
theorem roundtrip_first_body {F K : Type} (env : XLogEnv F K) (st rd : TDEState) (fd : F)
    (buf buf0 : Mem) (count tli segno i : Nat)
    (hinv : CipherInverts env) (hlen : CipherKeepsLength env) (hio : ReadsBackWrites env)
    (h4 : 4 ≤ env.SizeOfXLogLongPHD) (hflag0 : 0 < env.XLP_ENCRYPTED)
    (hflag : env.XLP_ENCRYPTED < 65536)
    (hc : env.SizeOfXLogLongPHD ≤ count) (hc64 : count < 2 ^ 64)
    (h1 : env.SizeOfXLogLongPHD ≤ i) (h2 : i < count) :
    (writeThenRead env st rd fd buf buf0 count 0 tli segno).2.1 i = buf i := by
  have hfl := disk_first_flag env st fd buf buf0 count tli segno hio h4 hc hflag
  have hd := disk_first_body env st fd buf buf0 count tli segno hio hlen hc hc64
  unfold diskAfterWrite at hfl hd
  unfold writeThenRead
  rw [seg_read_first_buf env rd _ buf0 count tli segno h4, if_pos (by rw [hfl]; omega),
    size_sub count _ hc hc64]
  rw [readRegion_congr _ _ _ _
    (fun j _ => set_xlp_info_other _ _ _ (by omega) (by omega)), hd, hinv]
  exact writeAt_readRegion _ buf _ _ i h1 (by omega)

/-- After a read at offset 0 the header bytes of the caller's buffer are the
bytes read with the flag cleared in `xlp_info`. -/
theorem seg_read_first_header {F K : Type} (env : XLogEnv F K) (st : TDEState) (fd : F)
    (buf : Mem) (count tli segno i : Nat) (h4 : 4 ≤ env.SizeOfXLogLongPHD)
    (hi : i < env.SizeOfXLogLongPHD) :
    (tdeheap_xlog_seg_read env st fd buf count 0 tli segno).2.1 i =
      set_xlp_info (env.pg_pread fd buf count 0).1
        (get_xlp_info (env.pg_pread fd buf count 0).1 &&& compl32 env.XLP_ENCRYPTED) i := by
  rw [seg_read_first_buf env st fd buf count tli segno h4]
  split
  · exact writeAt_below _ _ _ _ hi
  · rfl

/-- After a read at offset 0 the flag is clear in the caller's buffer. -/
theorem seg_read_first_info {F K : Type} (env : XLogEnv F K) (st : TDEState) (fd : F)
    (buf : Mem) (count tli segno : Nat) (h4 : 4 ≤ env.SizeOfXLogLongPHD) :
    get_xlp_info (tdeheap_xlog_seg_read env st fd buf count 0 tli segno).2.1 =
      (get_xlp_info (env.pg_pread fd buf count 0).1 &&& compl32 env.XLP_ENCRYPTED) % 65536 := by
  rw [get_xlp_info_congr _ _
    (seg_read_first_header env st fd buf count tli segno 2 h4 (by omega))
    (seg_read_first_header env st fd buf count tli segno 3 h4 (by omega))]
  exact get_set_xlp_info _ _

/-- After a first-page write and read, `xlp_info` is the input value with the
flag cleared. -/
theorem roundtrip_first_info {F K : Type} (env : XLogEnv F K) (st rd : TDEState) (fd : F)
    (buf buf0 : Mem) (count tli segno : Nat) (hio : ReadsBackWrites env)
    (h4 : 4 ≤ env.SizeOfXLogLongPHD) (hc : env.SizeOfXLogLongPHD ≤ count) :
    get_xlp_info (writeThenRead env st rd fd buf buf0 count 0 tli segno).2.1 =
      (get_xlp_info buf &&& compl32 env.XLP_ENCRYPTED) % 65536 := by
  have hd := disk_first_info env st fd buf buf0 count tli segno hio h4 hc
  unfold diskAfterWrite at hd
  unfold writeThenRead
  rw [seg_read_first_info env rd _ buf0 count tli segno h4, hd]
  exact set_then_clear _ _

/-- After a first-page write and read, the header bytes outside `xlp_info` are
the input bytes. -/
theorem roundtrip_first_other {F K : Type} (env : XLogEnv F K) (st rd : TDEState) (fd : F)
    (buf buf0 : Mem) (count tli segno i : Nat) (hio : ReadsBackWrites env)
    (h4 : 4 ≤ env.SizeOfXLogLongPHD) (hc : env.SizeOfXLogLongPHD ≤ count)
    (hi : i < env.SizeOfXLogLongPHD) (h2 : i ≠ 2) (h3 : i ≠ 3) :
    (writeThenRead env st rd fd buf buf0 count 0 tli segno).2.1 i = buf i := by
  have hd := disk_eq_scratchOut env st fd buf buf0 count 0 tli segno i hio (by omega)
  unfold diskAfterWrite at hd
  unfold writeThenRead
  rw [seg_read_first_header env rd _ buf0 count tli segno i h4 hi,
    set_xlp_info_other _ _ _ h2 h3, hd]
  exact scratchOut_first_other env st buf count tli segno i h4 hi h2 h3

/-- Two well-formed bytes are determined by the 16-bit value they spell. -/
theorem bytes_of_info (m m' : Mem) (h : get_xlp_info m = get_xlp_info m')
    (a2 : m 2 < 256) (a3 : m 3 < 256) (b2 : m' 2 < 256) (b3 : m' 3 < 256) :
    m 2 = m' 2 ∧ m 3 = m' 3 := by
  unfold get_xlp_info at h
  omega

/-- After a read at offset 0 the two bytes of `xlp_info` are well-formed. -/
theorem seg_read_first_info_bytes {F K : Type} (env : XLogEnv F K) (st : TDEState) (fd : F)
    (buf : Mem) (count tli segno : Nat) (h4 : 4 ≤ env.SizeOfXLogLongPHD) :
    (tdeheap_xlog_seg_read env st fd buf count 0 tli segno).2.1 2 < 256 ∧
    (tdeheap_xlog_seg_read env st fd buf count 0 tli segno).2.1 3 < 256 := by
  rw [seg_read_first_header env st fd buf count tli segno 2 h4 (by omega),
    seg_read_first_header env st fd buf count tli segno 3 h4 (by omega)]
  simp only [set_xlp_info]
  constructor
  · simp; omega
  · simp; omega

/-- After a first-page write and read of a buffer whose header has the flag
clear, every byte comes back. -/
theorem roundtrip_first_all {F K : Type} (env : XLogEnv F K) (st rd : TDEState) (fd : F)
    (buf buf0 : Mem) (count tli segno i : Nat)
    (hinv : CipherInverts env) (hlen : CipherKeepsLength env) (hio : ReadsBackWrites env)
    (h4 : 4 ≤ env.SizeOfXLogLongPHD) (hflag0 : 0 < env.XLP_ENCRYPTED)
    (hflag : env.XLP_ENCRYPTED < 65536)
    (hc : env.SizeOfXLogLongPHD ≤ count) (hc64 : count < 2 ^ 64)
    (hb : BytesOK buf count) (hclear : get_xlp_info buf &&& env.XLP_ENCRYPTED = 0)
    (hi : i < count) :
    (writeThenRead env st rd fd buf buf0 count 0 tli segno).2.1 i = buf i := by
  by_cases hhi : env.SizeOfXLogLongPHD ≤ i
  · exact roundtrip_first_body env st rd fd buf buf0 count tli segno i hinv hlen hio h4 hflag0
      hflag hc hc64 hhi hi
  · have hinfo := roundtrip_first_info env st rd fd buf buf0 count tli segno hio h4 hc
    rw [clear_of_clear _ _ (get_xlp_info_lt buf) hclear] at hinfo
    have hwf := seg_read_first_info_bytes env rd
      (fileAfterWrite env st fd buf count 0 tli segno) buf0 count tli segno h4
    have hbytes := bytes_of_info _ _ hinfo hwf.1 hwf.2 (hb 2 (by omega)) (hb 3 (by omega))
    by_cases h2 : i = 2
    · subst h2; exact hbytes.1
    · by_cases h3 : i = 3
      · subst h3; exact hbytes.2
      · exact roundtrip_first_other env st rd fd buf buf0 count tli segno i hio h4 hc
          (by omega) h2 h3

/-! ## The concrete environment satisfies the collaborator properties -/

theorem xorStream_length (iv : List Nat) (pos : Nat) (data : List Nat) (key : Nat) :
    (xorStream iv pos data key).length = data.length := by
  induction data generalizing pos with
  | nil => rfl
  | cons b bs ih => simp [xorStream, ih]

theorem xorStream_involutive (iv : List Nat) (pos : Nat) (data : List Nat) (key : Nat) :
    xorStream iv pos (xorStream iv pos data key) key = data := by
  induction data generalizing pos with
  | nil => rfl
  | cons b bs ih => simp [xorStream, ih, Nat.xor_cancel_right]

theorem xorStream_getD (iv : List Nat) (pos : Nat) (data : List Nat) (key i : Nat)
    (hi : i < data.length) :
    (xorStream iv pos data key).getD i 0 = data.getD i 0 ^^^ ksByte iv (pos + i) key := by
  induction data generalizing pos i with
  | nil => simp at hi
  | cons b bs ih =>
    cases i with
    | zero => simp [xorStream]
    | succ j =>
      simp only [xorStream, List.getD_cons_succ]
      rw [ih (pos + 1) j (by simpa using hi)]
      congr 2
      omega

theorem memEnv_inverts (h flag key : Nat) : CipherInverts (memEnv h flag key) :=
  fun iv pos data => xorStream_involutive iv pos data key

theorem memEnv_keepsLength (h flag key : Nat) : CipherKeepsLength (memEnv h flag key) :=
  fun iv pos data => ⟨xorStream_length iv pos data key, xorStream_length iv pos data key⟩

theorem memEnv_readsBack (h flag key : Nat) : ReadsBackWrites (memEnv h flag key) := by
  intro fd m n off buf0 i hi
  simp only [memEnv, if_pos hi]
  rw [if_pos ⟨by omega, by omega⟩]
  congr 1
  omega

theorem demoBuf_ok (n : Nat) : BytesOK demoBuf n := by
  intro i _
  unfold demoBuf
  split
  · omega
  · split
    · omega
    · exact Nat.mod_lt _ (by decide)

/-! ## C1, C2: write, then read -/

/-- C1 as stated fails on the code.  (1) One page written at offset 8192 and read
back by a reader whose `DecryptCurrentPageHrd` is still zero-initialised comes
back as ciphertext: byte 0 differs from the plaintext.  (2) Three pages written
at offset 0 from a buffer whose header already has `XLP_ENCRYPTED` set come back
with the bit cleared: `xlp_info` differs from the input. -/
theorem roundtrip_counterexample :
    (writeThenRead pgEnv demoState demoState demoFile demoBuf demoFile 8192 8192 1 0).2.1 0
        ≠ demoBuf 0 ∧
    get_xlp_info
        (writeThenRead pgEnv demoState demoState demoFile flaggedBuf demoFile 24576 0 1 0).2.1
      ≠ get_xlp_info flaggedBuf := by
  constructor
  · rw [roundtrip_later_raw pgEnv demoState demoState demoFile demoBuf demoFile 8192 8192 1 0
        (by decide) (by decide),
      disk_eq_scratchOut pgEnv demoState demoFile demoBuf demoFile 8192 8192 1 0 0
        (memEnv_readsBack 40 8 7) (by decide),
      scratchOut_later pgEnv demoState demoBuf 8192 8192 1 0 0 (memEnv_keepsLength 40 8 7)
        (by decide) (by decide)]
    dsimp only [pgEnv, memEnv]
    rw [xorStream_getD _ _ _ _ _ (by rw [readRegion_length]; decide),
      readRegion_getD _ _ _ _ (by decide)]
    decide
  · rw [roundtrip_first_info pgEnv demoState demoState demoFile flaggedBuf demoFile 24576 1 0
      (memEnv_readsBack 40 8 7) (by decide) (by decide)]
    decide

/-- C1, amended: with a cipher whose decrypt inverts encrypt and keeps the
length, and raw I/O that reads back what was written, an encrypting write of
well-formed bytes followed by `tdeheap_xlog_seg_read` of the same range with
the same timeline and segment number returns the bytes written, provided that
at offset 0 the count covers the long header and the input header has the
`XLP_ENCRYPTED` bit clear, and that at any other offset the reader's
`DecryptCurrentPageHrd` has the `XLP_ENCRYPTED` bit set. -/
theorem write_read_roundtrip {F K : Type} (env : XLogEnv F K) (st rd : TDEState) (fd : F)
    (buf buf0 : Mem) (count offset tli segno : Nat)
    (hinv : CipherInverts env) (hlen : CipherKeepsLength env) (hio : ReadsBackWrites env)
    (h4 : 4 ≤ env.SizeOfXLogLongPHD) (hflag0 : 0 < env.XLP_ENCRYPTED)
    (hflag : env.XLP_ENCRYPTED < 65536) (hc64 : count < 2 ^ 64) (hb : BytesOK buf count)
    (hc : offset = 0 → env.SizeOfXLogLongPHD ≤ count)
    (hclear : offset = 0 → get_xlp_info buf &&& env.XLP_ENCRYPTED = 0)
    (hctx : offset ≠ 0 → get_xlp_info rd.DecryptCurrentPageHrd &&& env.XLP_ENCRYPTED ≠ 0) :
    ∀ i, i < count →
      (writeThenRead env st rd fd buf buf0 count offset tli segno).2.1 i = buf i := by
  intro i hi
  by_cases hoff : offset = 0
  · subst hoff
    exact roundtrip_first_all env st rd fd buf buf0 count tli segno i hinv hlen hio h4 hflag0
      hflag (hc rfl) hc64 hb (hclear rfl) hi
  · exact roundtrip_later env st rd fd buf buf0 count offset tli segno i hinv hlen hio hoff
      (hctx hoff) hi

/-- Witness for the amended C1: one page at offset 8192, read by a reader whose
context has the flag. -/
theorem write_read_roundtrip_witness :
    get_xlp_info flaggedReader.DecryptCurrentPageHrd &&& pgEnv.XLP_ENCRYPTED ≠ 0 ∧
    ∀ i, i < 8192 →
      (writeThenRead pgEnv demoState flaggedReader demoFile demoBuf demoFile
        8192 8192 1 0).2.1 i = demoBuf i :=
  ⟨by decide,
    write_read_roundtrip pgEnv demoState flaggedReader demoFile demoBuf demoFile 8192 8192 1 0
      (memEnv_inverts 40 8 7) (memEnv_keepsLength 40 8 7) (memEnv_readsBack 40 8 7)
      (by decide) (by decide) (by decide) (by decide) (demoBuf_ok 8192)
      (fun h => absurd h (by decide)) (fun h => absurd h (by decide)) (fun _ => by decide)⟩

/-- C2: for every timeline, segment number and buffer of well-formed bytes
whose header has the `XLP_ENCRYPTED` bit clear, an encrypting write of `count`
bytes (at least the long header) at offset 0 followed by a full read at offset 0
with the same timeline, segment number and key returns exactly the buffer, with
the bit clear in the returned header, while the file holds the header with the
bit set (and otherwise unchanged) followed by the ciphertext of the body. -/
theorem first_page_scenario {F K : Type} (env : XLogEnv F K) (st rd : TDEState) (fd : F)
    (buf buf0 : Mem) (count tli segno : Nat)
    (hinv : CipherInverts env) (hlen : CipherKeepsLength env) (hio : ReadsBackWrites env)
    (h4 : 4 ≤ env.SizeOfXLogLongPHD) (hflag0 : 0 < env.XLP_ENCRYPTED)
    (hflag : env.XLP_ENCRYPTED < 65536)
    (hc : env.SizeOfXLogLongPHD ≤ count) (hc64 : count < 2 ^ 64)
    (hb : BytesOK buf count) (hclear : get_xlp_info buf &&& env.XLP_ENCRYPTED = 0) :
    (∀ i, i < count → (writeThenRead env st rd fd buf buf0 count 0 tli segno).2.1 i = buf i) ∧
    get_xlp_info (writeThenRead env st rd fd buf buf0 count 0 tli segno).2.1
      &&& env.XLP_ENCRYPTED = 0 ∧
    (∀ i, i < env.SizeOfXLogLongPHD → i ≠ 2 → i ≠ 3 →
      diskAfterWrite env st fd buf buf0 count 0 tli segno i = buf i) ∧
    get_xlp_info (diskAfterWrite env st fd buf buf0 count 0 tli segno) =
      get_xlp_info buf ||| env.XLP_ENCRYPTED ∧
    get_xlp_info (diskAfterWrite env st fd buf buf0 count 0 tli segno) &&& env.XLP_ENCRYPTED =
      env.XLP_ENCRYPTED ∧
    readRegion (diskAfterWrite env st fd buf buf0 count 0 tli segno) env.SizeOfXLogLongPHD
        (count - env.SizeOfXLogLongPHD) =
      env.PG_TDE_ENCRYPT_DATA (SetXLogPageIVPrefix tli segno ivZero) env.SizeOfXLogLongPHD
        (readRegion buf env.SizeOfXLogLongPHD (count - env.SizeOfXLogLongPHD)) env.key := by
  refine ⟨?_, ?_, ?_, ?_, ?_, ?_⟩
  · intro i hi
    exact roundtrip_first_all env st rd fd buf buf0 count tli segno i hinv hlen hio h4 hflag0
      hflag hc hc64 hb hclear hi
  · rw [roundtrip_first_info env st rd fd buf buf0 count tli segno hio h4 hc]
    exact clear_and_flag _ _
  · intro i hi h2 h3
    rw [disk_eq_scratchOut env st fd buf buf0 count 0 tli segno i hio (by omega)]
    exact scratchOut_first_other env st buf count tli segno i h4 hi h2 h3
  · rw [disk_first_info env st fd buf buf0 count tli segno hio h4 hc]
    exact Nat.mod_eq_of_lt (or_lt_65536 _ _ (get_xlp_info_lt buf) hflag)
  · exact disk_first_flag env st fd buf buf0 count tli segno hio h4 hc hflag
  · exact disk_first_body env st fd buf buf0 count tli segno hio hlen hc hc64

/-- Witness for C2: segment 0, timeline 1, three 8 kB pages at offset 0. -/
theorem first_page_scenario_witness :
    (∀ i, i < 24576 →
      (writeThenRead pgEnv demoState demoState demoFile demoBuf demoFile 24576 0 1 0).2.1 i
        = demoBuf i) ∧
    get_xlp_info (writeThenRead pgEnv demoState demoState demoFile demoBuf demoFile
      24576 0 1 0).2.1 &&& pgEnv.XLP_ENCRYPTED = 0 ∧
    (∀ i, i < pgEnv.SizeOfXLogLongPHD → i ≠ 2 → i ≠ 3 →
      diskAfterWrite pgEnv demoState demoFile demoBuf demoFile 24576 0 1 0 i = demoBuf i) ∧
    get_xlp_info (diskAfterWrite pgEnv demoState demoFile demoBuf demoFile 24576 0 1 0) =
      get_xlp_info demoBuf ||| pgEnv.XLP_ENCRYPTED ∧
    get_xlp_info (diskAfterWrite pgEnv demoState demoFile demoBuf demoFile 24576 0 1 0)
      &&& pgEnv.XLP_ENCRYPTED = pgEnv.XLP_ENCRYPTED ∧
    readRegion (diskAfterWrite pgEnv demoState demoFile demoBuf demoFile 24576 0 1 0)
        pgEnv.SizeOfXLogLongPHD (24576 - pgEnv.SizeOfXLogLongPHD) =
      pgEnv.PG_TDE_ENCRYPT_DATA (SetXLogPageIVPrefix 1 0 ivZero) pgEnv.SizeOfXLogLongPHD
        (readRegion demoBuf pgEnv.SizeOfXLogLongPHD (24576 - pgEnv.SizeOfXLogLongPHD))
        pgEnv.key :=
  first_page_scenario pgEnv demoState demoState demoFile demoBuf demoFile 24576 1 0
    (memEnv_inverts 40 8 7) (memEnv_keepsLength 40 8 7) (memEnv_readsBack 40 8 7)
    (by decide) (by decide) (by decide) (by decide) (by decide) (demoBuf_ok 24576) (by decide)

/-! ## C6: the IV prefix is per segment -/

theorem encArgs_iv {F K : Type} (env : XLogEnv F K) (st : TDEState) (buf : Mem)
    (count offset tli segno : Nat) :
    (TDEXLogEncryptArgs env st buf count offset tli segno).iv =
      SetXLogPageIVPrefix tli segno ivZero := rfl

theorem encArgs_pos {F K : Type} (env : XLogEnv F K) (st : TDEState) (buf : Mem)
    (count offset tli segno : Nat) :
    (TDEXLogEncryptArgs env st buf count offset tli segno).pos =
      if offset = 0 then env.SizeOfXLogLongPHD else offset := by
  by_cases hoff : offset = 0
  · subst hoff
    rw [encArgs_first, if_pos rfl]
  · rw [encArgs_later env st buf count offset tli segno hoff, if_neg hoff]

theorem SetXLogPageIVPrefix_ivZero_inj (t1 s1 t2 s2 : Nat)
    (ht1 : t1 < 2 ^ 32) (hs1 : s1 < 2 ^ 64) (ht2 : t2 < 2 ^ 32) (hs2 : s2 < 2 ^ 64)
    (h : SetXLogPageIVPrefix t1 s1 ivZero = SetXLogPageIVPrefix t2 s2 ivZero) :
    t1 = t2 ∧ s1 = s2 := by
  have h12 : 12 ≤ ivZero.length := by decide
  have h' := congrArg (List.take 12) h
  rw [SetXLogPageIVPrefix_take12 t1 s1 ivZero h12,
    SetXLogPageIVPrefix_take12 t2 s2 ivZero h12] at h'
  exact ivBytes_injective t1 s1 t2 s2 ht1 hs1 ht2 hs2 h'

/-- C6 as stated fails on the code.  Two encrypting writes under the same key
to the pages at offsets 8192 and 16384 of segment 0 on timeline 1 pass the same
IV prefix to the cipher; so do two writes of different contents to the page at
offset 8192, which also pass the same positional parameter. -/
theorem iv_reuse_counterexample :
    (TDEXLogEncryptArgs pgEnv demoState demoBuf 8192 8192 1 0).iv =
      (TDEXLogEncryptArgs pgEnv demoState demoBuf 8192 16384 1 0).iv ∧
    demoBuf 2 ≠ flaggedBuf 2 ∧
    (TDEXLogEncryptArgs pgEnv demoState demoBuf 8192 8192 1 0).iv =
      (TDEXLogEncryptArgs pgEnv demoState flaggedBuf 8192 8192 1 0).iv ∧
    (TDEXLogEncryptArgs pgEnv demoState demoBuf 8192 8192 1 0).pos =
      (TDEXLogEncryptArgs pgEnv demoState flaggedBuf 8192 8192 1 0).pos := by
  refine ⟨rfl, by decide, rfl, ?_⟩
  rw [encArgs_pos, encArgs_pos]

/-- C6, amended: the IV prefix the write path passes to the cipher is
`SetXLogPageIVPrefix(tli, segno)` on a zeroed array.  Two encrypting writes pass
the same prefix if and only if they have the same timeline and the same segment
number, whatever their offsets, counts and contents; the page inside the
segment enters only through the positional parameter, which is the offset, or
the header size for offset 0, so that two writes at distinct offsets get
distinct positions unless one is at 0 and the other at the header size. -/
theorem iv_per_segment {F K : Type} (env : XLogEnv F K) (st1 st2 : TDEState)
    (buf1 buf2 : Mem) (count1 count2 off1 off2 t1 s1 t2 s2 : Nat)
    (ht1 : t1 < 2 ^ 32) (hs1 : s1 < 2 ^ 64) (ht2 : t2 < 2 ^ 32) (hs2 : s2 < 2 ^ 64) :
    ((TDEXLogEncryptArgs env st1 buf1 count1 off1 t1 s1).iv =
        (TDEXLogEncryptArgs env st2 buf2 count2 off2 t2 s2).iv ↔ t1 = t2 ∧ s1 = s2) ∧
    (TDEXLogEncryptArgs env st1 buf1 count1 off1 t1 s1).pos =
      (if off1 = 0 then env.SizeOfXLogLongPHD else off1) ∧
    (TDEXLogEncryptArgs env st2 buf2 count2 off2 t2 s2).pos =
      (if off2 = 0 then env.SizeOfXLogLongPHD else off2) ∧
    (off1 ≠ off2 → (off1 = 0 → off2 ≠ env.SizeOfXLogLongPHD) →
      (off2 = 0 → off1 ≠ env.SizeOfXLogLongPHD) →
      (TDEXLogEncryptArgs env st1 buf1 count1 off1 t1 s1).pos ≠
        (TDEXLogEncryptArgs env st2 buf2 count2 off2 t2 s2).pos) := by
  refine ⟨?_, encArgs_pos _ _ _ _ _ _ _, encArgs_pos _ _ _ _ _ _ _, ?_⟩
  · rw [encArgs_iv, encArgs_iv]
    constructor
    · exact SetXLogPageIVPrefix_ivZero_inj t1 s1 t2 s2 ht1 hs1 ht2 hs2
    · rintro ⟨rfl, rfl⟩
      rfl
  · intro hne h1 h2
    rw [encArgs_pos, encArgs_pos]
    by_cases a : off1 = 0 <;> by_cases b : off2 = 0 <;> simp only [a, b, if_true, if_false]
    · omega
    · intro h; exact h1 a h.symm
    · intro h; exact h2 b h
    · exact hne

/-- Witness for the amended C6: timeline 1, segments 0 and 1. -/
theorem iv_per_segment_witness :
    ((TDEXLogEncryptArgs pgEnv demoState demoBuf 8192 8192 1 0).iv =
        (TDEXLogEncryptArgs pgEnv demoState demoBuf 8192 16384 1 1).iv ↔ 1 = 1 ∧ 0 = 1) ∧
    (TDEXLogEncryptArgs pgEnv demoState demoBuf 8192 8192 1 0).pos =
      (if 8192 = 0 then pgEnv.SizeOfXLogLongPHD else 8192) ∧
    (TDEXLogEncryptArgs pgEnv demoState demoBuf 8192 16384 1 1).pos =
      (if 16384 = 0 then pgEnv.SizeOfXLogLongPHD else 16384) ∧
    (8192 ≠ 16384 → (8192 = 0 → 16384 ≠ pgEnv.SizeOfXLogLongPHD) →
      (16384 = 0 → 8192 ≠ pgEnv.SizeOfXLogLongPHD) →
      (TDEXLogEncryptArgs pgEnv demoState demoBuf 8192 8192 1 0).pos ≠
        (TDEXLogEncryptArgs pgEnv demoState demoBuf 8192 16384 1 1).pos) :=
  iv_per_segment pgEnv demoState demoState demoBuf demoBuf 8192 8192 8192 16384 1 0 1 1
    (by decide) (by decide) (by decide) (by decide)

/-! ## C7: the flag is masked on read -/

/-- C7: after `tdeheap_xlog_seg_read` at offset 0 the `XLP_ENCRYPTED` bit of
`xlp_info` is clear in the buffer returned to the caller, whatever the raw read
delivered and whatever the state, count, timeline and segment number. -/
theorem flag_masked_on_read {F K : Type} (env : XLogEnv F K) (st : TDEState) (fd : F)
    (buf : Mem) (count tli segno : Nat) (h4 : 4 ≤ env.SizeOfXLogLongPHD) :
    get_xlp_info (tdeheap_xlog_seg_read env st fd buf count 0 tli segno).2.1
      &&& env.XLP_ENCRYPTED = 0 := by
  rw [seg_read_first_info env st fd buf count tli segno h4]
  exact clear_and_flag _ _

/-- Witness for C7: a segment file whose header has `xlp_info = 0x000A` on disk. -/
theorem flag_masked_on_read_witness :
    get_xlp_info (tdeheap_xlog_seg_read pgEnv demoState flaggedBuf demoFile 8192 0 1 0).2.1
      &&& pgEnv.XLP_ENCRYPTED = 0 :=
  flag_masked_on_read pgEnv demoState flaggedBuf demoFile 8192 1 0 (by decide)

/-! ## C8: the mode flag gates the write path only -/

/-- With the flag clear in the bytes read at offset 0, the read path hands back
the raw read's buffer. -/
theorem seg_read_first_plain {F K : Type} (env : XLogEnv F K) (st : TDEState) (fd : F)
    (buf : Mem) (count tli segno : Nat) (h4 : 4 ≤ env.SizeOfXLogLongPHD)
    (hclear : get_xlp_info (env.pg_pread fd buf count 0).1 &&& env.XLP_ENCRYPTED = 0)
    (h2 : (env.pg_pread fd buf count 0).1 2 < 256)
    (h3 : (env.pg_pread fd buf count 0).1 3 < 256) :
    (tdeheap_xlog_seg_read env st fd buf count 0 tli segno).2.1 =
      (env.pg_pread fd buf count 0).1 := by
  rw [seg_read_first_buf env st fd buf count tli segno h4, if_neg (by simpa using hclear)]
  funext i
  apply set_get_xlp_info _ _ _ h2 h3
  have hle : get_xlp_info (env.pg_pread fd buf count 0).1 &&& compl32 env.XLP_ENCRYPTED
      < 65536 := lt_of_le_of_lt Nat.and_le_left (get_xlp_info_lt _)
  have h := clear_of_clear _ _ (get_xlp_info_lt (env.pg_pread fd buf count 0).1) hclear
  rw [Nat.mod_eq_of_lt hle] at h
  exact h

/-- With the flag clear in the Decrypt Context, a read away from offset 0
hands back the raw read's buffer. -/
theorem seg_read_later_plain {F K : Type} (env : XLogEnv F K) (st : TDEState) (fd : F)
    (buf : Mem) (count offset tli segno : Nat) (hoff : offset ≠ 0)
    (hctx : get_xlp_info st.DecryptCurrentPageHrd &&& env.XLP_ENCRYPTED = 0) :
    (tdeheap_xlog_seg_read env st fd buf count offset tli segno).2.1 =
      (env.pg_pread fd buf count offset).1 := by
  rw [seg_read_later_buf env st fd buf count offset tli segno hoff,
    if_neg (by simpa using hctx)]

/-- C8 as stated fails on the code: with `EncryptXLog` false, a read at offset 0
of a segment whose header has `XLP_ENCRYPTED` set on disk returns byte 2 of the
header changed (10 on disk, 2 in the buffer), where the raw read returns it as
stored. -/
theorem plain_mode_read_counterexample :
    plainState.EncryptXLog = false ∧
    (pgEnv.pg_pread flaggedBuf demoFile 8192 0).1 2 = 10 ∧
    (tdeheap_xlog_seg_read pgEnv plainState flaggedBuf demoFile 8192 0 1 0).2.1 2 = 2 := by
  refine ⟨rfl, by decide, ?_⟩
  rw [seg_read_first_header pgEnv plainState flaggedBuf demoFile 8192 1 0 2
    (by decide) (by decide)]
  decide

/-- C8, amended: with `EncryptXLog` false, `tdeheap_xlog_seg_write` leaves the
file and returns the value exactly as the raw positional write of the caller's
buffer, and leaves the state alone.  `tdeheap_xlog_seg_read` does not consult
`EncryptXLog`: it returns the raw read's value always, and the raw read's buffer
contents when no `XLP_ENCRYPTED` bit is seen, that is at offset 0 when the
header bytes read are well-formed with the bit clear, and at another offset
when `DecryptCurrentPageHrd` has the bit clear. -/
theorem plain_mode_equivalence {F K : Type} (env : XLogEnv F K) (st : TDEState) (fd : F)
    (buf : Mem) (count offset tli segno : Nat) (h4 : 4 ≤ env.SizeOfXLogLongPHD)
    (hmode : st.EncryptXLog = false) :
    tdeheap_xlog_seg_write env st fd buf count offset tli segno =
      (st, (env.pg_pwrite fd buf count offset).1, (env.pg_pwrite fd buf count offset).2) ∧
    (tdeheap_xlog_seg_read env st fd buf count offset tli segno).2.2 =
      (env.pg_pread fd buf count offset).2 ∧
    (offset = 0 →
      get_xlp_info (env.pg_pread fd buf count offset).1 &&& env.XLP_ENCRYPTED = 0 →
      (env.pg_pread fd buf count offset).1 2 < 256 →
      (env.pg_pread fd buf count offset).1 3 < 256 →
      (tdeheap_xlog_seg_read env st fd buf count offset tli segno).2.1 =
        (env.pg_pread fd buf count offset).1) ∧
    (offset ≠ 0 →
      get_xlp_info st.DecryptCurrentPageHrd &&& env.XLP_ENCRYPTED = 0 →
      (tdeheap_xlog_seg_read env st fd buf count offset tli segno).2.1 =
        (env.pg_pread fd buf count offset).1) := by
  refine ⟨?_, rfl, ?_, ?_⟩
  · simp [tdeheap_xlog_seg_write, hmode]
  · intro hoff hclear h2 h3
    subst hoff
    exact seg_read_first_plain env st fd buf count tli segno h4 hclear h2 h3
  · intro hoff hctx
    exact seg_read_later_plain env st fd buf count offset tli segno hoff hctx

/-- Witness for the amended C8: a backend at process start with WAL encryption off. -/
theorem plain_mode_equivalence_witness :
    tdeheap_xlog_seg_write pgEnv plainState demoFile demoBuf 8192 0 1 0 =
      (plainState, (pgEnv.pg_pwrite demoFile demoBuf 8192 0).1,
        (pgEnv.pg_pwrite demoFile demoBuf 8192 0).2) ∧
    (tdeheap_xlog_seg_read pgEnv plainState demoFile demoBuf 8192 0 1 0).2.2 =
      (pgEnv.pg_pread demoFile demoBuf 8192 0).2 ∧
    (0 = 0 →
      get_xlp_info (pgEnv.pg_pread demoFile demoBuf 8192 0).1 &&& pgEnv.XLP_ENCRYPTED = 0 →
      (pgEnv.pg_pread demoFile demoBuf 8192 0).1 2 < 256 →
      (pgEnv.pg_pread demoFile demoBuf 8192 0).1 3 < 256 →
      (tdeheap_xlog_seg_read pgEnv plainState demoFile demoBuf 8192 0 1 0).2.1 =
        (pgEnv.pg_pread demoFile demoBuf 8192 0).1) ∧
    (0 ≠ 0 →
      get_xlp_info plainState.DecryptCurrentPageHrd &&& pgEnv.XLP_ENCRYPTED = 0 →
      (tdeheap_xlog_seg_read pgEnv plainState demoFile demoBuf 8192 0 1 0).2.1 =
        (pgEnv.pg_pread demoFile demoBuf 8192 0).1) :=
  plain_mode_equivalence pgEnv plainState demoFile demoBuf 8192 0 1 0 (by decide) rfl

/-! ## C9: the write path has no sizing check -/

/-- The write path returns the result of the raw write of the scratch buffer. -/
theorem write_result {F K : Type} (env : XLogEnv F K) (st : TDEState) (fd : F) (buf : Mem)
    (count offset tli segno : Nat) :
    (TDEXLogWriteEncryptedPages env st fd buf count offset tli segno).2.2 =
      (env.pg_pwrite fd (TDEXLogScratchOut env st buf count offset tli segno) count offset).2 :=
  rfl

/-- The write path leaves in the scratch buffer what it handed to the raw write. -/
theorem write_scratch {F K : Type} (env : XLogEnv F K) (st : TDEState) (fd : F) (buf : Mem)
    (count offset tli segno : Nat) :
    (TDEXLogWriteEncryptedPages env st fd buf count offset tli segno).1.TDEXLogEncryptBuf =
      TDEXLogScratchOut env st buf count offset tli segno := rfl

/-- C9 as stated fails on the code.  With 8 kB pages and `wal_buffers = 4` the
scratch buffer holds 32768 bytes.  An encrypting write of 32769 bytes at offset
8192 raises nothing: it returns 32769, the result of the raw write, and the
byte at index 32768, one past the end of the scratch buffer, has been
overwritten (13 in place of the stale 0xAA). -/
theorem boundary_sizing_counterexample :
    TDEXLogEncryptBuffSize demoConf = 32768 ∧
    (TDEXLogWriteEncryptedPages pgEnv demoState demoFile demoBuf 32769 8192 1 0).2.2 = 32769 ∧
    demoState.TDEXLogEncryptBuf 32768 = 0xAA ∧
    (TDEXLogWriteEncryptedPages pgEnv demoState demoFile demoBuf 32769 8192 1 0).1.TDEXLogEncryptBuf
      32768 = 13 := by
  refine ⟨by decide, rfl, rfl, ?_⟩
  rw [write_scratch,
    scratchOut_later pgEnv demoState demoBuf 32769 8192 1 0 32768 (memEnv_keepsLength 40 8 7)
    (by decide) (by decide)]
  dsimp only [pgEnv, memEnv]
  rw [xorStream_getD _ _ _ _ _ (by rw [readRegion_length]; decide),
    readRegion_getD _ _ _ _ (by decide)]
  decide

/-- Why the header condition is needed below: with a capacity of 32768 bytes, an
encrypting write of 8 bytes at offset 0 is within the capacity, yet `enc_size`
wraps to `2 ^ 64 - 32` and the cipher output reaches scratch index 32768, which
changes from the stale `0xAA` to 13. -/
theorem short_first_write_overruns :
    TDEXLogEncryptBuffSize demoConf = 32768 ∧
    (TDEXLogEncryptArgs pgEnv demoState demoBuf 8 0 1 0).enc_size = 2 ^ 64 - 32 ∧
    demoState.TDEXLogEncryptBuf 32768 = 0xAA ∧
    (TDEXLogWriteEncryptedPages pgEnv demoState demoFile demoBuf 8 0 1 0).1.TDEXLogEncryptBuf
      32768 = 13 := by
  refine ⟨by decide, ?_, rfl, ?_⟩
  · rw [encArgs_first]
    decide
  · rw [write_scratch]
    unfold TDEXLogScratchOut
    rw [encArgs_first]
    dsimp only [pgEnv, memEnv]
    rw [writeAt_inside _ _ _ _ (by decide)
        (by rw [xorStream_length, readRegion_length]; decide),
      xorStream_getD _ _ _ _ _ (by rw [readRegion_length]; decide),
      readRegion_getD _ _ _ _ (by decide)]
    decide

/-- C9, amended: an encrypting write whose count is at most the scratch buffer
capacity `TDEXLogEncryptBuffSize` (equal to it included), and at least the
header size `SizeOfXLogLongPHD` when the offset is 0, stores nothing at or past
the end of the scratch buffer, for a cipher that stores as many bytes as it is
handed, and returns the result of the raw write of `count` bytes of the scratch
buffer.  The write path makes no sizing check: for every count, larger than the
capacity or not, what it returns is the result of that raw write. -/
theorem boundary_sizing {F K : Type} (env : XLogEnv F K) (conf : XLogConf) (st : TDEState)
    (fd : F) (buf : Mem) (count offset tli segno : Nat)
    (hlen : CipherKeepsLength env) (h4 : 4 ≤ env.SizeOfXLogLongPHD)
    (hc : offset = 0 → env.SizeOfXLogLongPHD ≤ count) (hc64 : count < 2 ^ 64)
    (hcap : count ≤ TDEXLogEncryptBuffSize conf) :
    (∀ i, TDEXLogEncryptBuffSize conf ≤ i →
      (TDEXLogWriteEncryptedPages env st fd buf count offset tli segno).1.TDEXLogEncryptBuf i =
        st.TDEXLogEncryptBuf i) ∧
    (TDEXLogWriteEncryptedPages env st fd buf count offset tli segno).2.2 =
      (env.pg_pwrite fd (TDEXLogScratchOut env st buf count offset tli segno) count offset).2 ∧
    (∀ more : Nat,
      (TDEXLogWriteEncryptedPages env st fd buf more offset tli segno).2.2 =
        (env.pg_pwrite fd (TDEXLogScratchOut env st buf more offset tli segno) more offset).2) := by
  refine ⟨?_, rfl, fun _ => rfl⟩
  intro i hi
  rw [write_scratch]
  exact scratchOut_beyond env st buf count offset tli segno i hlen hc h4 hc64 (by omega)

/-- Witness for the amended C9: a first-page write of exactly the capacity,
32768 bytes at offset 0. -/
theorem boundary_sizing_witness :
    TDEXLogEncryptBuffSize demoConf = 32768 ∧
    (∀ i, TDEXLogEncryptBuffSize demoConf ≤ i →
      (TDEXLogWriteEncryptedPages pgEnv demoState demoFile demoBuf 32768 0 1 0).1.TDEXLogEncryptBuf
        i = demoState.TDEXLogEncryptBuf i) ∧
    (TDEXLogWriteEncryptedPages pgEnv demoState demoFile demoBuf 32768 0 1 0).2.2 =
      (pgEnv.pg_pwrite demoFile (TDEXLogScratchOut pgEnv demoState demoBuf 32768 0 1 0)
        32768 0).2 ∧
    (∀ more : Nat,
      (TDEXLogWriteEncryptedPages pgEnv demoState demoFile demoBuf more 0 1 0).2.2 =
        (pgEnv.pg_pwrite demoFile (TDEXLogScratchOut pgEnv demoState demoBuf more 0 1 0)
          more 0).2) :=
  ⟨by decide,
    boundary_sizing pgEnv demoConf demoState demoFile demoBuf 32768 0 1 0
      (memEnv_keepsLength 40 8 7) (by decide) (fun _ => by decide) (by decide) (by decide)⟩

/-! ## C10: the read path does not look at the raw result -/

/-- C10 as stated fails on the code.  The raw read finds nothing: it returns 0
and leaves the caller's buffer as it was.  The reader's `DecryptCurrentPageHrd`
has the flag, so the read path still runs the cipher over the whole buffer:
byte 0, which the raw read did not fill, changes from 5 to 13, while 0 is
returned. -/
theorem empty_read_counterexample :
    (eofEnv.pg_pread demoFile demoBuf 8192 8192).2 = 0 ∧
    (eofEnv.pg_pread demoFile demoBuf 8192 8192).1 0 = 5 ∧
    (tdeheap_xlog_seg_read eofEnv flaggedReader demoFile demoBuf 8192 8192 1 0).2.2 = 0 ∧
    (tdeheap_xlog_seg_read eofEnv flaggedReader demoFile demoBuf 8192 8192 1 0).2.1 0 = 13 := by
  refine ⟨rfl, by decide, rfl, ?_⟩
  rw [seg_read_later_buf eofEnv flaggedReader demoFile demoBuf 8192 8192 1 0 (by decide),
    if_pos (by decide)]
  dsimp only [eofEnv, pgEnv, memEnv]
  rw [writeAt_inside _ _ _ _ (Nat.zero_le 0)
    (by rw [xorStream_length, readRegion_length]; decide)]
  rw [xorStream_getD _ _ _ _ _ (by rw [readRegion_length]; decide),
    readRegion_getD _ _ _ _ (by decide)]
  decide

/-- C10, amended: `tdeheap_xlog_seg_read` returns the raw result as it is, in
every case, and never looks at it: what it does to the caller's buffer after
the raw read is the same for a zero, short, failed or full read.  The buffer is
left as the raw read left it when no `XLP_ENCRYPTED` bit is seen (at offset 0:
the header bytes in the buffer are well-formed with the bit clear; elsewhere:
`DecryptCurrentPageHrd` has the bit clear).  When `DecryptCurrentPageHrd` has
the bit at an offset other than 0, the cipher is applied to all `count` bytes
of the buffer. -/
theorem read_ignores_result {F K : Type} (env : XLogEnv F K) (st : TDEState) (fd : F)
    (buf : Mem) (count offset tli segno : Nat) (h4 : 4 ≤ env.SizeOfXLogLongPHD) :
    (tdeheap_xlog_seg_read env st fd buf count offset tli segno).2.2 =
      (env.pg_pread fd buf count offset).2 ∧
    (offset = 0 →
      get_xlp_info (env.pg_pread fd buf count offset).1 &&& env.XLP_ENCRYPTED = 0 →
      (env.pg_pread fd buf count offset).1 2 < 256 →
      (env.pg_pread fd buf count offset).1 3 < 256 →
      (tdeheap_xlog_seg_read env st fd buf count offset tli segno).2.1 =
        (env.pg_pread fd buf count offset).1) ∧
    (offset ≠ 0 →
      get_xlp_info st.DecryptCurrentPageHrd &&& env.XLP_ENCRYPTED = 0 →
      (tdeheap_xlog_seg_read env st fd buf count offset tli segno).2.1 =
        (env.pg_pread fd buf count offset).1) ∧
    (offset ≠ 0 →
      get_xlp_info st.DecryptCurrentPageHrd &&& env.XLP_ENCRYPTED ≠ 0 →
      (tdeheap_xlog_seg_read env st fd buf count offset tli segno).2.1 =
        writeAt (env.pg_pread fd buf count offset).1 0
          (env.PG_TDE_DECRYPT_DATA (SetXLogPageIVPrefix tli segno ivZero) offset
            (readRegion (env.pg_pread fd buf count offset).1 0 count) env.key)) := by
  refine ⟨rfl, ?_, ?_, ?_⟩
  · intro hoff hclear h2 h3
    subst hoff
    exact seg_read_first_plain env st fd buf count tli segno h4 hclear h2 h3
  · intro hoff hctx
    exact seg_read_later_plain env st fd buf count offset tli segno hoff hctx
  · intro hoff hctx
    rw [seg_read_later_buf env st fd buf count offset tli segno hoff, if_pos hctx]

/-- Witness for the amended C10: an empty read away from offset 0 by a reader
that has captured no flag. -/
theorem read_ignores_result_witness :
    (tdeheap_xlog_seg_read eofEnv plainState demoFile demoBuf 8192 8192 1 0).2.2 =
      (eofEnv.pg_pread demoFile demoBuf 8192 8192).2 ∧
    (8192 = 0 →
      get_xlp_info (eofEnv.pg_pread demoFile demoBuf 8192 8192).1 &&& eofEnv.XLP_ENCRYPTED = 0 →
      (eofEnv.pg_pread demoFile demoBuf 8192 8192).1 2 < 256 →
      (eofEnv.pg_pread demoFile demoBuf 8192 8192).1 3 < 256 →
      (tdeheap_xlog_seg_read eofEnv plainState demoFile demoBuf 8192 8192 1 0).2.1 =
        (eofEnv.pg_pread demoFile demoBuf 8192 8192).1) ∧
    (8192 ≠ 0 →
      get_xlp_info plainState.DecryptCurrentPageHrd &&& eofEnv.XLP_ENCRYPTED = 0 →
      (tdeheap_xlog_seg_read eofEnv plainState demoFile demoBuf 8192 8192 1 0).2.1 =
        (eofEnv.pg_pread demoFile demoBuf 8192 8192).1) ∧
    (8192 ≠ 0 →
      get_xlp_info plainState.DecryptCurrentPageHrd &&& eofEnv.XLP_ENCRYPTED ≠ 0 →
      (tdeheap_xlog_seg_read eofEnv plainState demoFile demoBuf 8192 8192 1 0).2.1 =
        writeAt (eofEnv.pg_pread demoFile demoBuf 8192 8192).1 0
          (eofEnv.PG_TDE_DECRYPT_DATA (SetXLogPageIVPrefix 1 0 ivZero) 8192
            (readRegion (eofEnv.pg_pread demoFile demoBuf 8192 8192).1 0 8192) eofEnv.key)) :=
  read_ignores_result eofEnv plainState demoFile demoBuf 8192 8192 1 0 (by decide)

/-! ## C11: results are passed through -/

/-- C11: the value returned by the encrypting write path is the value returned
by the one raw positional write of `count` bytes of the scratch buffer at the
original offset, and the file is left as that write leaves it; the same holds
for `tdeheap_xlog_seg_write` with encryption on.  The value returned by
`tdeheap_xlog_seg_read` is the value returned by the raw positional read.
Whatever the raw calls return, negative values included, comes back unchanged. -/
theorem result_propagation {F K : Type} (env : XLogEnv F K) (st : TDEState) (fd : F)
    (buf : Mem) (count offset tli segno : Nat) :
    (TDEXLogWriteEncryptedPages env st fd buf count offset tli segno).2.2 =
      (env.pg_pwrite fd (TDEXLogScratchOut env st buf count offset tli segno) count offset).2 ∧
    (TDEXLogWriteEncryptedPages env st fd buf count offset tli segno).2.1 =
      (env.pg_pwrite fd (TDEXLogScratchOut env st buf count offset tli segno) count offset).1 ∧
    (tdeheap_xlog_seg_write env { st with EncryptXLog := true } fd buf count offset tli segno).2.2 =
      (env.pg_pwrite fd (TDEXLogScratchOut env st buf count offset tli segno) count offset).2 ∧
    (tdeheap_xlog_seg_read env st fd buf count offset tli segno).2.2 =
      (env.pg_pread fd buf count offset).2 :=
  ⟨rfl, rfl, rfl, rfl⟩

/-- With raw I/O that fails with -1, both paths return -1. -/
theorem result_propagation_failure :
    (TDEXLogWriteEncryptedPages failEnv demoState demoFile demoBuf 8192 8192 1 0).2.2 = -1 ∧
    (tdeheap_xlog_seg_read failEnv flaggedReader demoFile demoBuf 8192 8192 1 0).2.2 = -1 :=
  ⟨rfl, rfl⟩

/-! ## C13: what the write path hands to the raw write -/

theorem scratchOut_later_region {F K : Type} (env : XLogEnv F K) (st : TDEState) (buf : Mem)
    (count offset tli segno : Nat) (hlen : CipherKeepsLength env) (hoff : offset ≠ 0) :
    readRegion (TDEXLogScratchOut env st buf count offset tli segno) 0 count =
      env.PG_TDE_ENCRYPT_DATA (SetXLogPageIVPrefix tli segno ivZero) offset
        (readRegion buf 0 count) env.key := by
  apply list_eq_of_getD
  · rw [readRegion_length, (hlen _ _ _).1, readRegion_length]
  · intro i hi
    rw [readRegion_length] at hi
    rw [readRegion_getD _ _ _ _ hi, Nat.zero_add,
      scratchOut_later env st buf count offset tli segno _ hlen hoff hi]

theorem scratchOut_first_region {F K : Type} (env : XLogEnv F K) (st : TDEState) (buf : Mem)
    (count tli segno : Nat) (hlen : CipherKeepsLength env)
    (hc : env.SizeOfXLogLongPHD ≤ count) (hc64 : count < 2 ^ 64) :
    readRegion (TDEXLogScratchOut env st buf count 0 tli segno) env.SizeOfXLogLongPHD
        (count - env.SizeOfXLogLongPHD) =
      env.PG_TDE_ENCRYPT_DATA (SetXLogPageIVPrefix tli segno ivZero) env.SizeOfXLogLongPHD
        (readRegion buf env.SizeOfXLogLongPHD (count - env.SizeOfXLogLongPHD)) env.key := by
  apply list_eq_of_getD
  · rw [readRegion_length, (hlen _ _ _).1, readRegion_length]
  · intro i hi
    rw [readRegion_length] at hi
    rw [readRegion_getD _ _ _ _ hi,
      scratchOut_first_hi env st buf count tli segno _ hlen hc hc64 (by omega) (by omega)]
    congr 1
    omega

theorem encArgs_enc_off {F K : Type} (env : XLogEnv F K) (st : TDEState) (buf : Mem)
    (count offset tli segno : Nat) :
    (TDEXLogEncryptArgs env st buf count offset tli segno).enc_off =
      if offset = 0 then env.SizeOfXLogLongPHD else 0 := by
  by_cases hoff : offset = 0
  · subst hoff
    rw [encArgs_first, if_pos rfl]
  · rw [encArgs_later env st buf count offset tli segno hoff, if_neg hoff]

theorem encArgs_enc_size {F K : Type} (env : XLogEnv F K) (st : TDEState) (buf : Mem)
    (count offset tli segno : Nat) (hc64 : count < 2 ^ 64)
    (hc : offset = 0 → env.SizeOfXLogLongPHD ≤ count) :
    (TDEXLogEncryptArgs env st buf count offset tli segno).enc_size =
      count - (TDEXLogEncryptArgs env st buf count offset tli segno).enc_off := by
  by_cases hoff : offset = 0
  · subst hoff
    rw [encArgs_first]
    exact size_sub count _ (hc rfl) hc64
  · rw [encArgs_later env st buf count offset tli segno hoff]
    rfl

/-- C13: the bytes handed to the raw write.  For an encrypting write with
`offset ≠ 0` the `count` bytes are the cipher output for `buf[0..count)` under
the IV of `(tli, segno)` at position `offset`.  For `offset = 0` and `count` at
least the header size `h` they are the input header with `XLP_ENCRYPTED` or-ed
into `xlp_info`, followed by the cipher output for `buf[h..count)` at position
`h`.  In both cases the cipher gets the position `offset + enc_off` and the
length `count - enc_off`, with `enc_off` being `h` at offset 0 and 0 elsewhere. -/
theorem write_path_output {F K : Type} (env : XLogEnv F K) (st : TDEState) (fd : F)
    (buf : Mem) (count offset tli segno : Nat)
    (hlen : CipherKeepsLength env) (h4 : 4 ≤ env.SizeOfXLogLongPHD)
    (hflag : env.XLP_ENCRYPTED < 65536) (hc64 : count < 2 ^ 64)
    (hc : offset = 0 → env.SizeOfXLogLongPHD ≤ count) :
    (TDEXLogWriteEncryptedPages env st fd buf count offset tli segno).2 =
      env.pg_pwrite fd (TDEXLogScratchOut env st buf count offset tli segno) count offset ∧
    (offset ≠ 0 →
      readRegion (TDEXLogScratchOut env st buf count offset tli segno) 0 count =
        env.PG_TDE_ENCRYPT_DATA (SetXLogPageIVPrefix tli segno ivZero) offset
          (readRegion buf 0 count) env.key) ∧
    (offset = 0 →
      (∀ i, i < env.SizeOfXLogLongPHD → i ≠ 2 → i ≠ 3 →
        TDEXLogScratchOut env st buf count offset tli segno i = buf i) ∧
      get_xlp_info (TDEXLogScratchOut env st buf count offset tli segno) =
        get_xlp_info buf ||| env.XLP_ENCRYPTED ∧
      readRegion (TDEXLogScratchOut env st buf count offset tli segno) env.SizeOfXLogLongPHD
          (count - env.SizeOfXLogLongPHD) =
        env.PG_TDE_ENCRYPT_DATA (SetXLogPageIVPrefix tli segno ivZero) env.SizeOfXLogLongPHD
          (readRegion buf env.SizeOfXLogLongPHD (count - env.SizeOfXLogLongPHD)) env.key) ∧
    (TDEXLogEncryptArgs env st buf count offset tli segno).iv =
      SetXLogPageIVPrefix tli segno ivZero ∧
    (TDEXLogEncryptArgs env st buf count offset tli segno).enc_off =
      (if offset = 0 then env.SizeOfXLogLongPHD else 0) ∧
    (TDEXLogEncryptArgs env st buf count offset tli segno).pos =
      offset + (TDEXLogEncryptArgs env st buf count offset tli segno).enc_off ∧
    (TDEXLogEncryptArgs env st buf count offset tli segno).enc_size =
      count - (TDEXLogEncryptArgs env st buf count offset tli segno).enc_off := by
  refine ⟨rfl, ?_, ?_, rfl, encArgs_enc_off _ _ _ _ _ _ _, rfl,
    encArgs_enc_size env st buf count offset tli segno hc64 hc⟩
  · intro hoff
    exact scratchOut_later_region env st buf count offset tli segno hlen hoff
  · intro hoff
    subst hoff
    refine ⟨?_, ?_, ?_⟩
    · intro i hi h2 h3
      exact scratchOut_first_other env st buf count tli segno i h4 hi h2 h3
    · rw [scratchOut_first_info env st buf count tli segno h4]
      exact Nat.mod_eq_of_lt (or_lt_65536 _ _ (get_xlp_info_lt buf) hflag)
    · exact scratchOut_first_region env st buf count tli segno hlen (hc rfl) hc64

/-- Witness for C13: three 8 kB pages at offset 0 of segment 0 on timeline 1. -/
theorem write_path_output_witness :
    (TDEXLogWriteEncryptedPages pgEnv demoState demoFile demoBuf 24576 0 1 0).2 =
      pgEnv.pg_pwrite demoFile (TDEXLogScratchOut pgEnv demoState demoBuf 24576 0 1 0) 24576 0 ∧
    (0 ≠ 0 →
      readRegion (TDEXLogScratchOut pgEnv demoState demoBuf 24576 0 1 0) 0 24576 =
        pgEnv.PG_TDE_ENCRYPT_DATA (SetXLogPageIVPrefix 1 0 ivZero) 0
          (readRegion demoBuf 0 24576) pgEnv.key) ∧
    (0 = 0 →
      (∀ i, i < pgEnv.SizeOfXLogLongPHD → i ≠ 2 → i ≠ 3 →
        TDEXLogScratchOut pgEnv demoState demoBuf 24576 0 1 0 i = demoBuf i) ∧
      get_xlp_info (TDEXLogScratchOut pgEnv demoState demoBuf 24576 0 1 0) =
        get_xlp_info demoBuf ||| pgEnv.XLP_ENCRYPTED ∧
      readRegion (TDEXLogScratchOut pgEnv demoState demoBuf 24576 0 1 0) pgEnv.SizeOfXLogLongPHD
          (24576 - pgEnv.SizeOfXLogLongPHD) =
        pgEnv.PG_TDE_ENCRYPT_DATA (SetXLogPageIVPrefix 1 0 ivZero) pgEnv.SizeOfXLogLongPHD
          (readRegion demoBuf pgEnv.SizeOfXLogLongPHD (24576 - pgEnv.SizeOfXLogLongPHD))
          pgEnv.key) ∧
    (TDEXLogEncryptArgs pgEnv demoState demoBuf 24576 0 1 0).iv =
      SetXLogPageIVPrefix 1 0 ivZero ∧
    (TDEXLogEncryptArgs pgEnv demoState demoBuf 24576 0 1 0).enc_off =
      (if 0 = 0 then pgEnv.SizeOfXLogLongPHD else 0) ∧
    (TDEXLogEncryptArgs pgEnv demoState demoBuf 24576 0 1 0).pos =
      0 + (TDEXLogEncryptArgs pgEnv demoState demoBuf 24576 0 1 0).enc_off ∧
    (TDEXLogEncryptArgs pgEnv demoState demoBuf 24576 0 1 0).enc_size =
      24576 - (TDEXLogEncryptArgs pgEnv demoState demoBuf 24576 0 1 0).enc_off :=
  write_path_output pgEnv demoState demoFile demoBuf 24576 0 1 0
    (memEnv_keepsLength 40 8 7) (by decide) (by decide) (by decide) (fun _ => by decide)

/-! ## C14, C15: what the read path returns -/

theorem readRegion_writeAt (dst : Mem) (off : Nat) (out : List Nat) :
    readRegion (writeAt dst off out) off out.length = out := by
  apply list_eq_of_getD
  · rw [readRegion_length]
  · intro i hi
    rw [readRegion_length] at hi
    rw [readRegion_getD _ _ _ _ hi, writeAt_inside _ _ _ _ (by omega) (by omega)]
    congr 1
    omega

theorem and_compl32_lt (x m : Nat) (hx : x < 65536) : x &&& compl32 m < 65536 :=
  lt_of_le_of_lt Nat.and_le_left hx

/-- The body of the buffer returned by a read at offset 0 of a header that has
the flag is the cipher output for the body as read. -/
theorem seg_read_first_body {F K : Type} (env : XLogEnv F K) (st : TDEState) (fd : F)
    (buf : Mem) (count tli segno : Nat) (hlen : CipherKeepsLength env)
    (h4 : 4 ≤ env.SizeOfXLogLongPHD) (hc : env.SizeOfXLogLongPHD ≤ count)
    (hc64 : count < 2 ^ 64)
    (hset : get_xlp_info (env.pg_pread fd buf count 0).1 &&& env.XLP_ENCRYPTED ≠ 0) :
    readRegion (tdeheap_xlog_seg_read env st fd buf count 0 tli segno).2.1
        env.SizeOfXLogLongPHD (count - env.SizeOfXLogLongPHD) =
      env.PG_TDE_DECRYPT_DATA (SetXLogPageIVPrefix tli segno ivZero) env.SizeOfXLogLongPHD
        (readRegion (env.pg_pread fd buf count 0).1 env.SizeOfXLogLongPHD
          (count - env.SizeOfXLogLongPHD)) env.key := by
  rw [seg_read_first_buf env st fd buf count tli segno h4, if_pos hset, size_sub count _ hc hc64,
    readRegion_congr _ (env.pg_pread fd buf count 0).1 _ _
      (fun j _ => set_xlp_info_other _ _ _ (by omega) (by omega))]
  have hl := (hlen (SetXLogPageIVPrefix tli segno ivZero) env.SizeOfXLogLongPHD
    (readRegion (env.pg_pread fd buf count 0).1 env.SizeOfXLogLongPHD
      (count - env.SizeOfXLogLongPHD))).2
  rw [readRegion_length] at hl
  have h := readRegion_writeAt
    (set_xlp_info (env.pg_pread fd buf count 0).1
      (get_xlp_info (env.pg_pread fd buf count 0).1 &&& compl32 env.XLP_ENCRYPTED))
    env.SizeOfXLogLongPHD
    (env.PG_TDE_DECRYPT_DATA (SetXLogPageIVPrefix tli segno ivZero) env.SizeOfXLogLongPHD
      (readRegion (env.pg_pread fd buf count 0).1 env.SizeOfXLogLongPHD
        (count - env.SizeOfXLogLongPHD)) env.key)
  rw [hl] at h
  exact h

/-- The body of the buffer returned by a read at offset 0 of a header without
the flag is the body as read. -/
theorem seg_read_first_body_plain {F K : Type} (env : XLogEnv F K) (st : TDEState) (fd : F)
    (buf : Mem) (count tli segno i : Nat) (h4 : 4 ≤ env.SizeOfXLogLongPHD)
    (hclear : get_xlp_info (env.pg_pread fd buf count 0).1 &&& env.XLP_ENCRYPTED = 0)
    (hi : env.SizeOfXLogLongPHD ≤ i) :
    (tdeheap_xlog_seg_read env st fd buf count 0 tli segno).2.1 i =
      (env.pg_pread fd buf count 0).1 i := by
  rw [seg_read_first_buf env st fd buf count tli segno h4, if_neg (by simpa using hclear)]
  exact set_xlp_info_other _ _ _ (by omega) (by omega)

/-- C14: a read of `count` bytes, at least the header size `h`, at offset 0.
The first `h` bytes of the returned buffer are the header bytes as read with
only `XLP_ENCRYPTED` cleared in `xlp_info`; they are not decrypted.
`DecryptCurrentPageHrd` becomes the header as read, flag included, and nothing
else in the state changes.  The bytes `[h, count)` are the cipher's decryption
of the bytes read at `[h, count)`, at position `h` under the IV of
`(tli, segno)`, when the header read has the flag, and are the bytes read when
it has not. -/
theorem read_first_page_output {F K : Type} (env : XLogEnv F K) (st : TDEState) (fd : F)
    (buf : Mem) (count tli segno : Nat)
    (hlen : CipherKeepsLength env) (h4 : 4 ≤ env.SizeOfXLogLongPHD)
    (hc : env.SizeOfXLogLongPHD ≤ count) (hc64 : count < 2 ^ 64) :
    (∀ i, i < env.SizeOfXLogLongPHD → i ≠ 2 → i ≠ 3 →
      (tdeheap_xlog_seg_read env st fd buf count 0 tli segno).2.1 i =
        (env.pg_pread fd buf count 0).1 i) ∧
    get_xlp_info (tdeheap_xlog_seg_read env st fd buf count 0 tli segno).2.1 =
      get_xlp_info (env.pg_pread fd buf count 0).1 &&& compl32 env.XLP_ENCRYPTED ∧
    get_xlp_info (tdeheap_xlog_seg_read env st fd buf count 0 tli segno).2.1
      &&& env.XLP_ENCRYPTED = 0 ∧
    (∀ i, i < env.SizeOfXLogLongPHD →
      (tdeheap_xlog_seg_read env st fd buf count 0 tli segno).1.DecryptCurrentPageHrd i =
        (env.pg_pread fd buf count 0).1 i) ∧
    get_xlp_info (tdeheap_xlog_seg_read env st fd buf count 0 tli segno).1.DecryptCurrentPageHrd =
      get_xlp_info (env.pg_pread fd buf count 0).1 ∧
    (tdeheap_xlog_seg_read env st fd buf count 0 tli segno).1.EncryptXLog = st.EncryptXLog ∧
    (tdeheap_xlog_seg_read env st fd buf count 0 tli segno).1.TDEXLogEncryptBuf =
      st.TDEXLogEncryptBuf ∧
    (get_xlp_info (env.pg_pread fd buf count 0).1 &&& env.XLP_ENCRYPTED ≠ 0 →
      readRegion (tdeheap_xlog_seg_read env st fd buf count 0 tli segno).2.1
          env.SizeOfXLogLongPHD (count - env.SizeOfXLogLongPHD) =
        env.PG_TDE_DECRYPT_DATA (SetXLogPageIVPrefix tli segno ivZero) env.SizeOfXLogLongPHD
          (readRegion (env.pg_pread fd buf count 0).1 env.SizeOfXLogLongPHD
            (count - env.SizeOfXLogLongPHD)) env.key) ∧
    (get_xlp_info (env.pg_pread fd buf count 0).1 &&& env.XLP_ENCRYPTED = 0 →
      ∀ i, env.SizeOfXLogLongPHD ≤ i →
        (tdeheap_xlog_seg_read env st fd buf count 0 tli segno).2.1 i =
          (env.pg_pread fd buf count 0).1 i) := by
  have hctx := seg_read_first_ctx env st fd buf count tli segno
  refine ⟨?_, ?_, ?_, ?_, ?_, ?_, ?_, ?_, ?_⟩
  · intro i hi h2 h3
    rw [seg_read_first_header env st fd buf count tli segno i h4 hi]
    exact set_xlp_info_other _ _ _ h2 h3
  · rw [seg_read_first_info env st fd buf count tli segno h4]
    exact Nat.mod_eq_of_lt (and_compl32_lt _ _ (get_xlp_info_lt _))
  · rw [seg_read_first_info env st fd buf count tli segno h4]
    exact clear_and_flag _ _
  · intro i hi
    rw [hctx]
    exact memcpy_below _ _ _ _ hi
  · rw [hctx]
    exact get_xlp_info_congr _ _ (memcpy_below _ _ _ _ (by omega))
      (memcpy_below _ _ _ _ (by omega))
  · rw [hctx]
  · rw [hctx]
  · intro hset
    exact seg_read_first_body env st fd buf count tli segno hlen h4 hc hc64 hset
  · intro hclear i hi
    exact seg_read_first_body_plain env st fd buf count tli segno i h4 hclear hi

/-- Witness for C14: reading three 8 kB pages at offset 0 of a segment whose
header has `xlp_info = 0x000A` on disk. -/
theorem read_first_page_output_witness :
    (∀ i, i < pgEnv.SizeOfXLogLongPHD → i ≠ 2 → i ≠ 3 →
      (tdeheap_xlog_seg_read pgEnv demoState flaggedBuf demoFile 24576 0 1 0).2.1 i =
        (pgEnv.pg_pread flaggedBuf demoFile 24576 0).1 i) ∧
    get_xlp_info (tdeheap_xlog_seg_read pgEnv demoState flaggedBuf demoFile 24576 0 1 0).2.1 =
      get_xlp_info (pgEnv.pg_pread flaggedBuf demoFile 24576 0).1
        &&& compl32 pgEnv.XLP_ENCRYPTED ∧
    get_xlp_info (tdeheap_xlog_seg_read pgEnv demoState flaggedBuf demoFile 24576 0 1 0).2.1
      &&& pgEnv.XLP_ENCRYPTED = 0 ∧
    (∀ i, i < pgEnv.SizeOfXLogLongPHD →
      (tdeheap_xlog_seg_read pgEnv demoState flaggedBuf demoFile
        24576 0 1 0).1.DecryptCurrentPageHrd i =
        (pgEnv.pg_pread flaggedBuf demoFile 24576 0).1 i) ∧
    get_xlp_info (tdeheap_xlog_seg_read pgEnv demoState flaggedBuf demoFile
        24576 0 1 0).1.DecryptCurrentPageHrd =
      get_xlp_info (pgEnv.pg_pread flaggedBuf demoFile 24576 0).1 ∧
    (tdeheap_xlog_seg_read pgEnv demoState flaggedBuf demoFile 24576 0 1 0).1.EncryptXLog =
      demoState.EncryptXLog ∧
    (tdeheap_xlog_seg_read pgEnv demoState flaggedBuf demoFile 24576 0 1 0).1.TDEXLogEncryptBuf =
      demoState.TDEXLogEncryptBuf ∧
    (get_xlp_info (pgEnv.pg_pread flaggedBuf demoFile 24576 0).1 &&& pgEnv.XLP_ENCRYPTED ≠ 0 →
      readRegion (tdeheap_xlog_seg_read pgEnv demoState flaggedBuf demoFile 24576 0 1 0).2.1
          pgEnv.SizeOfXLogLongPHD (24576 - pgEnv.SizeOfXLogLongPHD) =
        pgEnv.PG_TDE_DECRYPT_DATA (SetXLogPageIVPrefix 1 0 ivZero) pgEnv.SizeOfXLogLongPHD
          (readRegion (pgEnv.pg_pread flaggedBuf demoFile 24576 0).1 pgEnv.SizeOfXLogLongPHD
            (24576 - pgEnv.SizeOfXLogLongPHD)) pgEnv.key) ∧
    (get_xlp_info (pgEnv.pg_pread flaggedBuf demoFile 24576 0).1 &&& pgEnv.XLP_ENCRYPTED = 0 →
      ∀ i, pgEnv.SizeOfXLogLongPHD ≤ i →
        (tdeheap_xlog_seg_read pgEnv demoState flaggedBuf demoFile 24576 0 1 0).2.1 i =
          (pgEnv.pg_pread flaggedBuf demoFile 24576 0).1 i) :=
  read_first_page_output pgEnv demoState flaggedBuf demoFile 24576 1 0
    (memEnv_keepsLength 40 8 7) (by decide) (by decide) (by decide)

theorem get_xlp_info_zero : get_xlp_info (fun _ => 0) = 0 := rfl

/-- C15: a read at an offset other than 0 leaves the state, and with it
`DecryptCurrentPageHrd`, as it was.  When the header captured there has the
`XLP_ENCRYPTED` bit, the returned buffer is the raw buffer with its `count`
bytes replaced by their decryption at position `offset` under the IV of
`(tli, segno)`; when it has not, the raw buffer is returned unchanged.  That is
the case in particular before any read at offset 0, when the variable is still
zero-initialised. -/
theorem read_later_page_decision {F K : Type} (env : XLogEnv F K) (st : TDEState) (fd : F)
    (buf : Mem) (count offset tli segno : Nat)
    (hlen : CipherKeepsLength env) (hoff : offset ≠ 0) :
    (tdeheap_xlog_seg_read env st fd buf count offset tli segno).1 = st ∧
    (get_xlp_info st.DecryptCurrentPageHrd &&& env.XLP_ENCRYPTED ≠ 0 →
      (tdeheap_xlog_seg_read env st fd buf count offset tli segno).2.1 =
          writeAt (env.pg_pread fd buf count offset).1 0
            (env.PG_TDE_DECRYPT_DATA (SetXLogPageIVPrefix tli segno ivZero) offset
              (readRegion (env.pg_pread fd buf count offset).1 0 count) env.key) ∧
      readRegion (tdeheap_xlog_seg_read env st fd buf count offset tli segno).2.1 0 count =
          env.PG_TDE_DECRYPT_DATA (SetXLogPageIVPrefix tli segno ivZero) offset
            (readRegion (env.pg_pread fd buf count offset).1 0 count) env.key ∧
      ∀ i, count ≤ i →
        (tdeheap_xlog_seg_read env st fd buf count offset tli segno).2.1 i =
          (env.pg_pread fd buf count offset).1 i) ∧
    (get_xlp_info st.DecryptCurrentPageHrd &&& env.XLP_ENCRYPTED = 0 →
      (tdeheap_xlog_seg_read env st fd buf count offset tli segno).2.1 =
        (env.pg_pread fd buf count offset).1) ∧
    (∀ scratch : Mem,
      (tdeheap_xlog_seg_read env (TDEState.boot scratch) fd buf count offset tli segno).2.1 =
        (env.pg_pread fd buf count offset).1) := by
  have hl := (hlen (SetXLogPageIVPrefix tli segno ivZero) offset
    (readRegion (env.pg_pread fd buf count offset).1 0 count)).2
  rw [readRegion_length] at hl
  refine ⟨seg_read_later_ctx env st fd buf count offset tli segno hoff, ?_, ?_, ?_⟩
  · intro hset
    rw [seg_read_later_buf env st fd buf count offset tli segno hoff, if_pos hset]
    refine ⟨rfl, ?_, ?_⟩
    · have h := readRegion_writeAt (env.pg_pread fd buf count offset).1 0
        (env.PG_TDE_DECRYPT_DATA (SetXLogPageIVPrefix tli segno ivZero) offset
          (readRegion (env.pg_pread fd buf count offset).1 0 count) env.key)
      rw [hl] at h
      exact h
    · intro i hi
      exact writeAt_above _ _ _ _ (by rw [hl]; omega)
  · intro hclear
    exact seg_read_later_plain env st fd buf count offset tli segno hoff hclear
  · intro scratch
    apply seg_read_later_plain env (TDEState.boot scratch) fd buf count offset tli segno hoff
    show get_xlp_info (fun _ => 0) &&& env.XLP_ENCRYPTED = 0
    rw [get_xlp_info_zero, Nat.zero_and]

/-- Witness for C15: one page at offset 8192 read by a reader that captured a
header with the flag. -/
theorem read_later_page_decision_witness :
    (tdeheap_xlog_seg_read pgEnv flaggedReader demoFile demoBuf 8192 8192 1 0).1
      = flaggedReader ∧
    (get_xlp_info flaggedReader.DecryptCurrentPageHrd &&& pgEnv.XLP_ENCRYPTED ≠ 0 →
      (tdeheap_xlog_seg_read pgEnv flaggedReader demoFile demoBuf 8192 8192 1 0).2.1 =
          writeAt (pgEnv.pg_pread demoFile demoBuf 8192 8192).1 0
            (pgEnv.PG_TDE_DECRYPT_DATA (SetXLogPageIVPrefix 1 0 ivZero) 8192
              (readRegion (pgEnv.pg_pread demoFile demoBuf 8192 8192).1 0 8192) pgEnv.key) ∧
      readRegion (tdeheap_xlog_seg_read pgEnv flaggedReader demoFile demoBuf
          8192 8192 1 0).2.1 0 8192 =
          pgEnv.PG_TDE_DECRYPT_DATA (SetXLogPageIVPrefix 1 0 ivZero) 8192
            (readRegion (pgEnv.pg_pread demoFile demoBuf 8192 8192).1 0 8192) pgEnv.key ∧
      ∀ i, 8192 ≤ i →
        (tdeheap_xlog_seg_read pgEnv flaggedReader demoFile demoBuf 8192 8192 1 0).2.1 i =
          (pgEnv.pg_pread demoFile demoBuf 8192 8192).1 i) ∧
    (get_xlp_info flaggedReader.DecryptCurrentPageHrd &&& pgEnv.XLP_ENCRYPTED = 0 →
      (tdeheap_xlog_seg_read pgEnv flaggedReader demoFile demoBuf 8192 8192 1 0).2.1 =
        (pgEnv.pg_pread demoFile demoBuf 8192 8192).1) ∧
    (∀ scratch : Mem,
      (tdeheap_xlog_seg_read pgEnv (TDEState.boot scratch) demoFile demoBuf
        8192 8192 1 0).2.1 = (pgEnv.pg_pread demoFile demoBuf 8192 8192).1) :=
  read_later_page_decision pgEnv flaggedReader demoFile demoBuf 8192 8192 1 0
    (memEnv_keepsLength 40 8 7) (by decide)

/-! ## C17: the scratch buffer is overwritten before it is written out -/

/-- C17: for an encrypting write whose count covers the header when the offset
is 0, the `count` bytes handed to the raw write are the same for any two
states, and so for any two prior contents of the scratch buffer, and for any
two input buffers that agree on their first `count` bytes: they are determined
by `buf[0..count)`, `count`, `offset`, `tli`, `segno` and the key. -/
theorem scratch_reuse_no_leak {F K : Type} (env : XLogEnv F K) (st st' : TDEState)
    (buf buf' : Mem) (count offset tli segno : Nat)
    (hlen : CipherKeepsLength env) (h4 : 4 ≤ env.SizeOfXLogLongPHD) (hc64 : count < 2 ^ 64)
    (hc : offset = 0 → env.SizeOfXLogLongPHD ≤ count)
    (hb : ∀ i, i < count → buf i = buf' i) :
    ∀ i, i < count →
      TDEXLogScratchOut env st buf count offset tli segno i =
        TDEXLogScratchOut env st' buf' count offset tli segno i := by
  intro i hi
  by_cases hoff : offset = 0
  · subst hoff
    have hc0 := hc rfl
    by_cases hhi : env.SizeOfXLogLongPHD ≤ i
    · rw [scratchOut_first_hi env st buf count tli segno i hlen hc0 hc64 hhi hi,
        scratchOut_first_hi env st' buf' count tli segno i hlen hc0 hc64 hhi hi,
        readRegion_congr buf buf' _ _ (fun j hj => hb _ (by omega))]
    · have hlo : i < env.SizeOfXLogLongPHD := by omega
      rw [scratchOut_first_lo env st buf count tli segno i h4 hlo,
        scratchOut_first_lo env st' buf' count tli segno i h4 hlo,
        get_xlp_info_congr buf buf' (hb 2 (by omega)) (hb 3 (by omega))]
      simp only [set_xlp_info]
      split
      · rfl
      · split
        · rfl
        · rw [memcpy_below _ _ _ _ hlo, memcpy_below _ _ _ _ hlo]
          exact hb i hi
  · rw [scratchOut_later env st buf count offset tli segno i hlen hoff hi,
      scratchOut_later env st' buf' count offset tli segno i hlen hoff hi,
      readRegion_congr buf buf' _ _ (fun j hj => by rw [Nat.zero_add]; exact hb j hj)]

/-- Witness for C17: a scratch buffer full of stale `0xAA` against one full of
zeros, three pages at offset 0. -/
theorem scratch_reuse_no_leak_witness :
    demoState.TDEXLogEncryptBuf 100 ≠ flaggedReader.TDEXLogEncryptBuf 100 ∧
    ∀ i, i < 24576 →
      TDEXLogScratchOut pgEnv demoState demoBuf 24576 0 1 0 i =
        TDEXLogScratchOut pgEnv flaggedReader demoBuf 24576 0 1 0 i :=
  ⟨by decide,
    scratch_reuse_no_leak pgEnv demoState flaggedReader demoBuf demoBuf 24576 0 1 0
      (memEnv_keepsLength 40 8 7) (by decide) (by decide) (fun _ => by decide)
      (fun _ _ => rfl)⟩

/-! ## C18, C19: the size of the scratch buffer -/

/-- C19: for `NBuffers ≥ 0` and positive `wal_segment_size` and `XLOG_BLCKSZ`,
`XLOGChooseNumBuffers` returns `max(8, min(NBuffers / 32, wal_segment_size /
XLOG_BLCKSZ))` with integer division; the result is at least 8, and at most
`wal_segment_size / XLOG_BLCKSZ` whenever a segment holds at least 8 pages. -/
theorem XLOGChooseNumBuffers_value (c : XLogConf) (hN : 0 ≤ c.NBuffers)
    (hw : 0 < c.wal_segment_size) (hb : 0 < c.XLOG_BLCKSZ) :
    XLOGChooseNumBuffers c =
      max 8 (min (c.NBuffers / 32) (c.wal_segment_size / (c.XLOG_BLCKSZ : Int))) ∧
    8 ≤ XLOGChooseNumBuffers c ∧
    (8 ≤ c.wal_segment_size / (c.XLOG_BLCKSZ : Int) →
      XLOGChooseNumBuffers c ≤ c.wal_segment_size / (c.XLOG_BLCKSZ : Int)) := by
  have hb' : (0 : Int) ≤ (c.XLOG_BLCKSZ : Int) := by exact_mod_cast le_of_lt hb
  have h1 : Int.tdiv c.NBuffers 32 = c.NBuffers / 32 := Int.tdiv_eq_ediv hN (by decide)
  have h2 : Int.tdiv c.wal_segment_size (c.XLOG_BLCKSZ : Int) =
      c.wal_segment_size / (c.XLOG_BLCKSZ : Int) := Int.tdiv_eq_ediv (le_of_lt hw) hb'
  simp only [XLOGChooseNumBuffers, h1, h2]
  generalize c.NBuffers / 32 = a
  generalize c.wal_segment_size / (c.XLOG_BLCKSZ : Int) = b
  refine ⟨?_, ?_, ?_⟩
  · rw [max_def, min_def]
    split_ifs <;> omega
  · split_ifs <;> omega
  · intro h8
    split_ifs <;> omega

/-- Witness for C19: 16384 shared buffers, 16 MB segments, 8 kB pages. -/
theorem XLOGChooseNumBuffers_value_witness :
    XLOGChooseNumBuffers demoConf = 512 ∧
    XLOGChooseNumBuffers demoConf =
      max 8 (min (demoConf.NBuffers / 32)
        (demoConf.wal_segment_size / (demoConf.XLOG_BLCKSZ : Int))) ∧
    8 ≤ XLOGChooseNumBuffers demoConf ∧
    (8 ≤ demoConf.wal_segment_size / (demoConf.XLOG_BLCKSZ : Int) →
      XLOGChooseNumBuffers demoConf
        ≤ demoConf.wal_segment_size / (demoConf.XLOG_BLCKSZ : Int)) :=
  ⟨by decide, XLOGChooseNumBuffers_value demoConf (by decide) (by decide) (by decide)⟩

theorem XLOGChooseNumBuffers_ge (c : XLogConf) : 8 ≤ XLOGChooseNumBuffers c := by
  simp only [XLOGChooseNumBuffers]
  split_ifs <;> omega

theorem tdiv_32_lt (a : Int) (h : a < 2 ^ 31) : Int.tdiv a 32 < 2 ^ 31 := by
  by_cases h0 : 0 ≤ a
  · rw [Int.tdiv_eq_ediv h0 (by decide)]
    omega
  · have hn : 0 ≤ -a := by omega
    have h1 : Int.tdiv a 32 = -Int.tdiv (-a) 32 := by
      rw [Int.neg_tdiv, neg_neg]
    have h2 := Int.tdiv_nonneg hn (by decide : (0 : Int) ≤ 32)
    omega

theorem XLOGChooseNumBuffers_lt (c : XLogConf) (hN : c.NBuffers < 2 ^ 31) :
    XLOGChooseNumBuffers c < 2 ^ 31 := by
  have h := tdiv_32_lt c.NBuffers hN
  simp only [XLOGChooseNumBuffers]
  split_ifs <;> omega

/-- The product taken in `Size` is the exact product when both factors are
non-negative and fit `int`. -/
theorem size_product_exact (b : Nat) (x : Int) (hb : b < 2 ^ 31) (hx0 : 0 ≤ x)
    (hx : x < 2 ^ 31) :
    (((b % 2 ^ 64 * (x % 2 ^ 64).toNat) % 2 ^ 64 : Nat) : Int) = (b : Int) * x := by
  obtain ⟨n, rfl⟩ := Int.eq_ofNat_of_zero_le hx0
  have hn : n < 2 ^ 31 := by exact_mod_cast hx
  have h1 : ((n : Int) % 2 ^ 64).toNat = n := by
    rw [Int.emod_eq_of_lt hx0 (by omega)]
    exact Int.toNat_natCast n
  have h2 : b * n < 2 ^ 31 * 2 ^ 31 := Nat.mul_lt_mul'' hb hn
  rw [h1, Nat.mod_eq_of_lt (by omega : b < 2 ^ 64), Nat.mod_eq_of_lt (by omega)]
  push_cast
  rfl

/-- The product taken in `Size` is the product modulo `2 ^ 64` in every case. -/
theorem size_product_mod (b : Nat) (x : Int) :
    (((b % 2 ^ 64 * (x % 2 ^ 64).toNat) % 2 ^ 64 : Nat) : Int) = ((b : Int) * x) % 2 ^ 64 := by
  have hx : (((x % 18446744073709551616).toNat : Nat) : Int) = x % 18446744073709551616 :=
    Int.toNat_of_nonneg (Int.emod_nonneg _ (by decide))
  push_cast
  rw [hx, Int.mul_emod ((b : Int) % 18446744073709551616),
    Int.emod_emod_of_dvd _ (dvd_refl _), Int.emod_emod_of_dvd _ (dvd_refl _), ← Int.mul_emod]

/-- C18: `TDEXLogEncryptBuffSize` returns `XLOG_BLCKSZ * XLOGbuffers` when the
configured `XLOGbuffers` is not -1 and `XLOG_BLCKSZ * XLOGChooseNumBuffers()`
when it is -1.  The product is taken in the 64-bit type `Size`: for a
non-negative buffer count and a page size that both fit `int` it is the exact
integer product, also when that product exceeds `int`; in every case it is the
product modulo `2 ^ 64`. -/
theorem TDEXLogEncryptBuffSize_value (c : XLogConf) (hB : c.XLOG_BLCKSZ < 2 ^ 31)
    (hN : c.NBuffers < 2 ^ 31) (hX : c.XLOGbuffers < 2 ^ 31)
    (hX0 : c.XLOGbuffers ≠ -1 → 0 ≤ c.XLOGbuffers) :
    (c.XLOGbuffers ≠ -1 →
      (TDEXLogEncryptBuffSize c : Int) = (c.XLOG_BLCKSZ : Int) * c.XLOGbuffers) ∧
    (c.XLOGbuffers = -1 →
      (TDEXLogEncryptBuffSize c : Int) = (c.XLOG_BLCKSZ : Int) * XLOGChooseNumBuffers c) ∧
    (TDEXLogEncryptBuffSize c : Int) =
      ((c.XLOG_BLCKSZ : Int) *
        (if c.XLOGbuffers = -1 then XLOGChooseNumBuffers c else c.XLOGbuffers)) % 2 ^ 64 := by
  refine ⟨?_, ?_, ?_⟩
  · intro hne
    simp only [TDEXLogEncryptBuffSize, if_neg hne]
    exact size_product_exact _ _ hB (hX0 hne) hX
  · intro heq
    simp only [TDEXLogEncryptBuffSize, if_pos heq]
    exact size_product_exact _ _ hB
      (le_trans (by decide) (XLOGChooseNumBuffers_ge c)) (XLOGChooseNumBuffers_lt c hN)
  · simp only [TDEXLogEncryptBuffSize]
    exact size_product_mod _ _

/-- Witness for C18: 262144 buffers of 8 kB give `2 ^ 31` bytes, one more than
`INT_MAX`. -/
theorem TDEXLogEncryptBuffSize_value_witness :
    TDEXLogEncryptBuffSize bigConf = 2147483648 ∧
    (bigConf.XLOGbuffers ≠ -1 →
      (TDEXLogEncryptBuffSize bigConf : Int) = (bigConf.XLOG_BLCKSZ : Int) * bigConf.XLOGbuffers) ∧
    (bigConf.XLOGbuffers = -1 →
      (TDEXLogEncryptBuffSize bigConf : Int) =
        (bigConf.XLOG_BLCKSZ : Int) * XLOGChooseNumBuffers bigConf) ∧
    (TDEXLogEncryptBuffSize bigConf : Int) =
      ((bigConf.XLOG_BLCKSZ : Int) *
        (if bigConf.XLOGbuffers = -1 then XLOGChooseNumBuffers bigConf
          else bigConf.XLOGbuffers)) % 2 ^ 64 :=
  ⟨by decide,
    TDEXLogEncryptBuffSize_value bigConf (by decide) (by decide) (by decide)
      (fun _ => by decide)⟩

/-! ## C16: one write or two -/

theorem readRegion_add (m : Mem) (off a b : Nat) :
    readRegion m off (a + b) = readRegion m off a ++ readRegion m (off + a) b := by
  unfold readRegion
  rw [List.range_add, List.map_append, List.map_map]
  congr 1
  apply List.map_congr_left
  intro i _
  simp [Nat.add_assoc]

theorem readRegion_shift (m : Mem) (k off n : Nat) :
    readRegion (fun i => m (k + i)) off n = readRegion m (k + off) n := by
  unfold readRegion
  apply List.map_congr_left
  intro i _
  simp [Nat.add_assoc]

/-- With a seekable cipher the ciphertext of `buf[e..count)` at position `p` is
the ciphertext of `buf[e..k)` at `p` followed by that of `buf[k..count)` at
`p + (k - e)`. -/
theorem enc_split {F K : Type} (env : XLogEnv F K) (hseek : CipherSeekable env)
    (iv : List Nat) (p : Nat) (buf : Mem) (e k count : Nat) (hek : e ≤ k) (hk : k ≤ count) :
    env.PG_TDE_ENCRYPT_DATA iv p (readRegion buf e (count - e)) env.key =
      env.PG_TDE_ENCRYPT_DATA iv p (readRegion buf e (k - e)) env.key ++
        env.PG_TDE_ENCRYPT_DATA iv (p + (k - e)) (readRegion buf k (count - k)) env.key := by
  have h1 : count - e = (k - e) + (count - k) := by omega
  have h2 : e + (k - e) = k := by omega
  rw [h1, readRegion_add, hseek, readRegion_length, h2]

/-- The scratch buffer at the raw write, for an offset other than 0 or for a
count that covers the header: below `enc_off` the flagged header, from there on
the cipher output. -/
theorem scratchOut_body {F K : Type} (env : XLogEnv F K) (st : TDEState) (buf : Mem)
    (count offset tli segno i : Nat) (hlen : CipherKeepsLength env) (hc64 : count < 2 ^ 64)
    (hc : offset = 0 → env.SizeOfXLogLongPHD ≤ count)
    (h1 : (if offset = 0 then env.SizeOfXLogLongPHD else 0) ≤ i) (h2 : i < count) :
    TDEXLogScratchOut env st buf count offset tli segno i =
      (env.PG_TDE_ENCRYPT_DATA (SetXLogPageIVPrefix tli segno ivZero)
        (offset + (if offset = 0 then env.SizeOfXLogLongPHD else 0))
        (readRegion buf (if offset = 0 then env.SizeOfXLogLongPHD else 0)
          (count - (if offset = 0 then env.SizeOfXLogLongPHD else 0))) env.key).getD
        (i - (if offset = 0 then env.SizeOfXLogLongPHD else 0)) 0 := by
  by_cases hoff : offset = 0
  · subst hoff
    simp only [if_true, Nat.zero_add] at h1 ⊢
    exact scratchOut_first_hi env st buf count tli segno i hlen (hc rfl) hc64 h1 h2
  · simp only [if_neg hoff, Nat.add_zero, Nat.sub_zero] at h1 ⊢
    exact scratchOut_later env st buf count offset tli segno i hlen hoff h2

/-- The header bytes at the raw write of a first page do not depend on the count
nor, for header bytes, on the state. -/
theorem scratchOut_first_lo_count {F K : Type} (env : XLogEnv F K) (st : TDEState) (buf : Mem)
    (count count' tli segno i : Nat) (h4 : 4 ≤ env.SizeOfXLogLongPHD)
    (hi : i < env.SizeOfXLogLongPHD) :
    TDEXLogScratchOut env st buf count 0 tli segno i =
      TDEXLogScratchOut env st buf count' 0 tli segno i := by
  rw [scratchOut_first_lo env st buf count tli segno i h4 hi,
    scratchOut_first_lo env st buf count' tli segno i h4 hi]

/-- The first `k` bytes handed to the raw write by a write of `k` bytes are the
first `k` bytes handed over by a write of `count ≥ k` bytes at the same offset. -/
theorem scratchOut_prefix {F K : Type} (env : XLogEnv F K) (st : TDEState) (buf : Mem)
    (count offset tli segno k i : Nat)
    (hseek : CipherSeekable env) (hlen : CipherKeepsLength env)
    (h4 : 4 ≤ env.SizeOfXLogLongPHD) (hc64 : count < 2 ^ 64) (hk : k ≤ count)
    (hk0 : offset = 0 → env.SizeOfXLogLongPHD ≤ k) (hi : i < k) :
    TDEXLogScratchOut env st buf k offset tli segno i =
      TDEXLogScratchOut env st buf count offset tli segno i := by
  by_cases hlo : (if offset = 0 then env.SizeOfXLogLongPHD else 0) ≤ i
  · have hek : (if offset = 0 then env.SizeOfXLogLongPHD else 0) ≤ k := by omega
    rw [scratchOut_body env st buf k offset tli segno i hlen (by omega) hk0 hlo hi,
      scratchOut_body env st buf count offset tli segno i hlen hc64
        (fun h => le_trans (hk0 h) hk) hlo (by omega),
      enc_split env hseek _ _ buf _ k count hek hk,
      List.getD_append _ _ _ _ (by rw [(hlen _ _ _).1, readRegion_length]; omega)]
  · by_cases hoff : offset = 0
    · subst hoff
      simp only [if_true] at hlo
      exact scratchOut_first_lo_count env st buf k count tli segno i h4 (by omega)
    · simp only [if_neg hoff] at hlo
      omega

/-- The bytes handed to the raw write by a write of `buf[k..count)` at
`offset + k` are the bytes from `k` on handed over by a write of `buf[0..count)`
at `offset`. -/
theorem scratchOut_suffix {F K : Type} (env : XLogEnv F K) (st st' : TDEState) (buf : Mem)
    (count offset tli segno k i : Nat)
    (hseek : CipherSeekable env) (hlen : CipherKeepsLength env)
    (h4 : 4 ≤ env.SizeOfXLogLongPHD) (hc64 : count < 2 ^ 64) (hk : k ≤ count)
    (hk0 : offset = 0 → env.SizeOfXLogLongPHD ≤ k) (hi : i < count - k) :
    TDEXLogScratchOut env st' (fun j => buf (k + j)) (count - k) (offset + k) tli segno i =
      TDEXLogScratchOut env st buf count offset tli segno (k + i) := by
  have hoffk : offset + k ≠ 0 := by
    by_cases hoff : offset = 0
    · have := hk0 hoff
      omega
    · omega
  have hek : (if offset = 0 then env.SizeOfXLogLongPHD else 0) ≤ k := by
    by_cases hoff : offset = 0
    · simp only [if_pos hoff]; exact hk0 hoff
    · simp only [if_neg hoff]; omega
  rw [scratchOut_later env st' _ (count - k) (offset + k) tli segno i hlen hoffk hi,
    scratchOut_body env st buf count offset tli segno (k + i) hlen hc64
      (fun h => le_trans (hk0 h) hk) (by omega) (by omega),
    enc_split env hseek _ _ buf _ k count hek hk,
    List.getD_append_right _ _ _ _ (by rw [(hlen _ _ _).1, readRegion_length]; omega),
    (hlen _ _ _).1, readRegion_length, readRegion_shift, Nat.add_zero]
  have e1 : offset + (if offset = 0 then env.SizeOfXLogLongPHD else 0) +
      (k - (if offset = 0 then env.SizeOfXLogLongPHD else 0)) = offset + k := by omega
  have e2 : k + i - (if offset = 0 then env.SizeOfXLogLongPHD else 0) -
      (k - (if offset = 0 then env.SizeOfXLogLongPHD else 0)) = i := by omega
  rw [e1, e2]

theorem xorStream_append (iv : List Nat) (p : Nat) (a c : List Nat) (key : Nat) :
    xorStream iv p (a ++ c) key = xorStream iv p a key ++ xorStream iv (p + a.length) c key := by
  induction a generalizing p with
  | nil => simp [xorStream]
  | cons b bs ih =>
    have e : p + (b :: bs).length = p + 1 + bs.length := by
      rw [List.length_cons]
      omega
    rw [e]
    show (b ^^^ ksByte iv p key) :: xorStream iv (p + 1) (bs ++ c) key =
      (b ^^^ ksByte iv p key) :: (xorStream iv (p + 1) bs key ++
        xorStream iv (p + 1 + bs.length) c key)
    rw [ih (p + 1)]

theorem memEnv_seekable (h flag key : Nat) : CipherSeekable (memEnv h flag key) :=
  fun iv p a c => xorStream_append iv p a c key

theorem memEnv_writesAppend (h flag key : Nat) : WritesAppend (memEnv h flag key) := by
  intro fd m m1 m2 k n off hk h1 h2
  funext i
  simp only [memEnv]
  by_cases ha : off + k ≤ i ∧ i < off + k + (n - k)
  · rw [if_pos ha, if_pos ⟨by omega, by omega⟩, h2 _ (by omega)]
    congr 1
    omega
  · rw [if_neg ha]
    by_cases hb : off ≤ i ∧ i < off + k
    · rw [if_pos hb, if_pos ⟨by omega, by omega⟩]
      exact h1 _ (by omega)
    · rw [if_neg hb, if_neg (by omega)]

/-- C16: with a seekable stream cipher that keeps lengths, and raw writes that
append, one encrypting write of `count` bytes at `offset` leaves the file as an
encrypting write of the first `k` bytes at `offset` followed by an encrypting
write of the remaining `count - k` bytes at `offset + k` does, for every split
point `k ≤ count` that is at least the header size when `offset = 0`. -/
theorem batched_write_alignment {F K : Type} (env : XLogEnv F K) (st : TDEState) (fd : F)
    (buf : Mem) (count offset tli segno k : Nat)
    (hseek : CipherSeekable env) (hlen : CipherKeepsLength env) (hw : WritesAppend env)
    (h4 : 4 ≤ env.SizeOfXLogLongPHD) (hc64 : count < 2 ^ 64) (hk : k ≤ count)
    (hk0 : offset = 0 → env.SizeOfXLogLongPHD ≤ k) :
    (TDEXLogWriteEncryptedPages env
        (TDEXLogWriteEncryptedPages env st fd buf k offset tli segno).1
        (TDEXLogWriteEncryptedPages env st fd buf k offset tli segno).2.1
        (fun i => buf (k + i)) (count - k) (offset + k) tli segno).2.1 =
      (TDEXLogWriteEncryptedPages env st fd buf count offset tli segno).2.1 := by
  simp only [TDEXLogWriteEncryptedPages]
  apply hw fd _ _ _ k count offset hk
  · intro i hi
    exact scratchOut_prefix env st buf count offset tli segno k i hseek hlen h4 hc64 hk hk0 hi
  · intro i hi
    exact scratchOut_suffix env st _ buf count offset tli segno k i hseek hlen h4 hc64 hk hk0 hi

/-- Witness for C16: three pages at offset 0, written at once or as one page
followed by two. -/
theorem batched_write_alignment_witness :
    (TDEXLogWriteEncryptedPages pgEnv
        (TDEXLogWriteEncryptedPages pgEnv demoState demoFile demoBuf 8192 0 1 0).1
        (TDEXLogWriteEncryptedPages pgEnv demoState demoFile demoBuf 8192 0 1 0).2.1
        (fun i => demoBuf (8192 + i)) (24576 - 8192) (0 + 8192) 1 0).2.1 =
      (TDEXLogWriteEncryptedPages pgEnv demoState demoFile demoBuf 24576 0 1 0).2.1 :=
  batched_write_alignment pgEnv demoState demoFile demoBuf 24576 0 1 0 8192
    (memEnv_seekable 40 8 7) (memEnv_keepsLength 40 8 7) (memEnv_writesAppend 40 8 7)
    (by decide) (by decide) (by decide) (fun _ => by decide)

/-! ## C12: the write path stores into the scratch buffer only -/

theorem memcpyAt_outside (mem : Mem) (dst src n a : Nat) (h : a < dst ∨ dst + n ≤ a) :
    memcpyAt mem dst src n a = mem a := by
  unfold memcpyAt
  rw [if_neg]
  omega

theorem memcpyAt_inside (mem : Mem) (dst src n i : Nat) (h : i < n) :
    memcpyAt mem dst src n (dst + i) = mem (src + i) := by
  unfold memcpyAt
  rw [if_pos ⟨by omega, by omega⟩]
  congr 1
  omega

theorem set_xlp_info_at_other (mem : Mem) (p v a : Nat) (h2 : a ≠ p + 2) (h3 : a ≠ p + 3) :
    set_xlp_info_at mem p v a = mem a := by
  simp [set_xlp_info_at, h2, h3]

theorem set_xlp_info_at_region (mem : Mem) (p v i : Nat) :
    set_xlp_info_at mem p v (p + i) = set_xlp_info (regionAt mem p) v i := by
  simp only [set_xlp_info_at, set_xlp_info, regionAt]
  by_cases h2 : i = 2
  · subst h2
    simp
  · by_cases h3 : i = 3
    · subst h3
      simp
    · rw [if_neg (by omega), if_neg (by omega), if_neg h2, if_neg h3]

/-- The memory after the encrypting write, at offset 0. -/
theorem write_mem_first {F K : Type} (env : XLogEnv F K) (mem : Mem) (sp : Nat) (fd : F)
    (buf count tli segno : Nat) :
    (TDEXLogWriteEncryptedPages_mem env mem sp fd buf count 0 tli segno).1 =
      writeAt
        (set_xlp_info_at (memcpyAt mem sp buf env.SizeOfXLogLongPHD) sp
          (get_xlp_info (regionAt (memcpyAt mem sp buf env.SizeOfXLogLongPHD) sp)
            ||| env.XLP_ENCRYPTED))
        (sp + env.SizeOfXLogLongPHD)
        (env.PG_TDE_ENCRYPT_DATA (SetXLogPageIVPrefix tli segno ivZero) env.SizeOfXLogLongPHD
          (readRegion
            (set_xlp_info_at (memcpyAt mem sp buf env.SizeOfXLogLongPHD) sp
              (get_xlp_info (regionAt (memcpyAt mem sp buf env.SizeOfXLogLongPHD) sp)
                ||| env.XLP_ENCRYPTED))
            (buf + env.SizeOfXLogLongPHD)
            ((count + 2 ^ 64 - env.SizeOfXLogLongPHD) % 2 ^ 64)) env.key) := by
  simp [TDEXLogWriteEncryptedPages_mem]

/-- The memory after the encrypting write, away from offset 0. -/
theorem write_mem_later {F K : Type} (env : XLogEnv F K) (mem : Mem) (sp : Nat) (fd : F)
    (buf count offset tli segno : Nat) (hoff : offset ≠ 0) :
    (TDEXLogWriteEncryptedPages_mem env mem sp fd buf count offset tli segno).1 =
      writeAt mem sp
        (env.PG_TDE_ENCRYPT_DATA (SetXLogPageIVPrefix tli segno ivZero) offset
          (readRegion mem buf count) env.key) := by
  simp [TDEXLogWriteEncryptedPages_mem, hoff]

/-- Every store of the encrypting write lands in `scratch[0..count)`. -/
theorem write_mem_frame {F K : Type} (env : XLogEnv F K) (mem : Mem) (sp : Nat) (fd : F)
    (buf count offset tli segno a : Nat) (hlen : CipherKeepsLength env)
    (h4 : 4 ≤ env.SizeOfXLogLongPHD) (hc64 : count < 2 ^ 64)
    (hc : offset = 0 → env.SizeOfXLogLongPHD ≤ count) (ha : a < sp ∨ sp + count ≤ a) :
    (TDEXLogWriteEncryptedPages_mem env mem sp fd buf count offset tli segno).1 a = mem a := by
  by_cases hoff : offset = 0
  · subst hoff
    have hc0 := hc rfl
    rw [write_mem_first, size_sub count _ hc0 hc64]
    have hout : a < sp + env.SizeOfXLogLongPHD ∨
        sp + env.SizeOfXLogLongPHD + (count - env.SizeOfXLogLongPHD) ≤ a := by omega
    rcases hout with hlt | hge
    · rw [writeAt_below _ _ _ _ hlt, set_xlp_info_at_other _ _ _ _ (by omega) (by omega),
        memcpyAt_outside _ _ _ _ _ (by omega)]
    · rw [writeAt_above _ _ _ _ (by rw [(hlen _ _ _).1, readRegion_length]; exact hge),
        set_xlp_info_at_other _ _ _ _ (by omega) (by omega),
        memcpyAt_outside _ _ _ _ _ (by omega)]
  · rw [write_mem_later env mem sp fd buf count offset tli segno hoff]
    rcases ha with hlt | hge
    · exact writeAt_below _ _ _ _ hlt
    · exact writeAt_above _ _ _ _ (by rw [(hlen _ _ _).1, readRegion_length]; exact hge)

theorem readRegion_regionAt (mem : Mem) (p off n : Nat) :
    readRegion (regionAt mem p) off n = readRegion mem (p + off) n :=
  readRegion_shift mem p off n

/-- On disjoint regions the scratch buffer left by the write on one memory is
the one computed on separate regions. -/
theorem write_mem_scratch {F K : Type} (env : XLogEnv F K) (st : TDEState) (mem : Mem)
    (sp : Nat) (fd : F) (buf count offset tli segno i : Nat)
    (hst : st.TDEXLogEncryptBuf = regionAt mem sp) (hlen : CipherKeepsLength env)
    (h4 : 4 ≤ env.SizeOfXLogLongPHD) (hc64 : count < 2 ^ 64)
    (hc : offset = 0 → env.SizeOfXLogLongPHD ≤ count)
    (hdisj : buf + count ≤ sp ∨ sp + count ≤ buf) :
    (TDEXLogWriteEncryptedPages_mem env mem sp fd buf count offset tli segno).1 (sp + i) =
      TDEXLogScratchOut env st (regionAt mem buf) count offset tli segno i := by
  by_cases hi : i < count
  · by_cases hoff : offset = 0
    · subst hoff
      have hc0 := hc rfl
      rw [write_mem_first, size_sub count _ hc0 hc64]
      by_cases hhi : env.SizeOfXLogLongPHD ≤ i
      · rw [writeAt_inside _ _ _ _ (by omega)
            (by rw [(hlen _ _ _).1, readRegion_length]; omega),
          scratchOut_first_hi env st _ count tli segno i hlen hc0 hc64 hhi hi,
          readRegion_regionAt,
          readRegion_congr _ mem _ _ (fun j hj => by
            rw [set_xlp_info_at_other _ _ _ _ (by omega) (by omega),
              memcpyAt_outside _ _ _ _ _ (by omega)])]
        congr 1
        omega
      · have hlo : i < env.SizeOfXLogLongPHD := by omega
        have hinfo : get_xlp_info (regionAt (memcpyAt mem sp buf env.SizeOfXLogLongPHD) sp) =
            get_xlp_info (regionAt mem buf) :=
          get_xlp_info_congr _ _ (memcpyAt_inside _ _ _ _ _ (by omega))
            (memcpyAt_inside _ _ _ _ _ (by omega))
        rw [writeAt_below _ _ _ _ (by omega), set_xlp_info_at_region, hinfo,
          scratchOut_first_lo env st _ count tli segno i h4 hlo]
        simp only [set_xlp_info]
        split
        · rfl
        · split
          · rfl
          · rw [memcpy_below _ _ _ _ hlo]
            exact memcpyAt_inside _ _ _ _ _ hlo
    · rw [write_mem_later env mem sp fd buf count offset tli segno hoff,
        writeAt_inside _ _ _ _ (by omega) (by rw [(hlen _ _ _).1, readRegion_length]; omega),
        scratchOut_later env st _ count offset tli segno i hlen hoff hi,
        readRegion_regionAt, Nat.add_zero]
      congr 1
      omega
  · rw [write_mem_frame env mem sp fd buf count offset tli segno _ hlen h4 hc64 hc (by omega),
      scratchOut_beyond env st _ count offset tli segno i hlen hc h4 hc64 (by omega), hst]
    rfl

theorem seg_write_mem_encrypting {F K : Type} (env : XLogEnv F K) (mem : Mem) (sp : Nat)
    (fd : F) (buf count offset tli segno : Nat) :
    tdeheap_xlog_seg_write_mem env true mem sp fd buf count offset tli segno =
      TDEXLogWriteEncryptedPages_mem env mem sp fd buf count offset tli segno := rfl

theorem seg_write_mem_plain {F K : Type} (env : XLogEnv F K) (mem : Mem) (sp : Nat)
    (fd : F) (buf count offset tli segno : Nat) :
    (tdeheap_xlog_seg_write_mem env false mem sp fd buf count offset tli segno).1 = mem := rfl

/-- C12 as stated fails on the code, for calls that store past the end of the
scratch buffer.  The scratch buffer is at address 0 and holds 32768 bytes.
(1) The input buffer starts right behind it, at address 32768; an encrypting
write of 32769 bytes at offset 8192 changes the first input byte from 5 to 13.
(2) The input buffer is at address 100000; an encrypting write of 8 bytes,
fewer than the header, at offset 0 makes `enc_size` wrap, and the first input
byte changes from 5 to 205. -/
theorem input_mutated_counterexample :
    TDEXLogEncryptBuffSize demoConf = 32768 ∧
    demoMem 32768 32768 = 5 ∧
    (tdeheap_xlog_seg_write_mem pgEnv true (demoMem 32768) 0 demoFile
      32768 32769 8192 1 0).1 32768 = 13 ∧
    demoMem 100000 100000 = 5 ∧
    (tdeheap_xlog_seg_write_mem pgEnv true (demoMem 100000) 0 demoFile
      100000 8 0 1 0).1 100000 = 205 := by
  refine ⟨by decide, by decide, ?_, by decide, ?_⟩
  · rw [seg_write_mem_encrypting,
      write_mem_later pgEnv (demoMem 32768) 0 demoFile 32768 32769 8192 1 0 (by decide)]
    dsimp only [pgEnv, memEnv]
    rw [writeAt_inside _ _ _ _ (by decide)
        (by rw [xorStream_length, readRegion_length]; decide),
      xorStream_getD _ _ _ _ _ (by rw [readRegion_length]; decide),
      readRegion_getD _ _ _ _ (by decide)]
    decide
  · rw [seg_write_mem_encrypting, write_mem_first]
    dsimp only [pgEnv, memEnv]
    rw [writeAt_inside _ _ _ _ (by decide)
        (by rw [xorStream_length, readRegion_length]; decide),
      xorStream_getD _ _ _ _ _ (by rw [readRegion_length]; decide),
      readRegion_getD _ _ _ _ (by decide)]
    decide

/-- C12, amended: for every call of `tdeheap_xlog_seg_write`, encrypting or
pass-through, whose count is at most the capacity `cap` of the scratch buffer
and at least the header size when the offset is 0, with an input buffer
disjoint from the scratch buffer: the input buffer holds after the call what it
held before; no byte outside the scratch buffer is stored to, and the
pass-through path stores nothing at all.  At offset 0 the `XLP_ENCRYPTED` bit
is or-ed into `xlp_info` of the scratch-buffer copy of the header, while
`xlp_info` of the input header is as before. -/
theorem input_not_mutated {F K : Type} (env : XLogEnv F K) (encrypt : Bool) (mem : Mem)
    (sp cap : Nat) (fd : F) (buf count offset tli segno : Nat)
    (hlen : CipherKeepsLength env) (h4 : 4 ≤ env.SizeOfXLogLongPHD) (hc64 : count < 2 ^ 64)
    (hc : offset = 0 → env.SizeOfXLogLongPHD ≤ count) (hcap : count ≤ cap)
    (hdisj : buf + count ≤ sp ∨ sp + cap ≤ buf) :
    (∀ i, i < count →
      (tdeheap_xlog_seg_write_mem env encrypt mem sp fd buf count offset tli segno).1 (buf + i)
        = mem (buf + i)) ∧
    (∀ a, a < sp ∨ sp + cap ≤ a →
      (tdeheap_xlog_seg_write_mem env encrypt mem sp fd buf count offset tli segno).1 a
        = mem a) ∧
    (tdeheap_xlog_seg_write_mem env false mem sp fd buf count offset tli segno).1 = mem ∧
    (offset = 0 →
      get_xlp_info (regionAt
          (tdeheap_xlog_seg_write_mem env true mem sp fd buf count offset tli segno).1 sp) =
        (get_xlp_info (regionAt mem buf) ||| env.XLP_ENCRYPTED) % 65536 ∧
      get_xlp_info (regionAt
          (tdeheap_xlog_seg_write_mem env true mem sp fd buf count offset tli segno).1 buf) =
        get_xlp_info (regionAt mem buf)) := by
  have hframe : ∀ a, a < sp ∨ sp + count ≤ a →
      (tdeheap_xlog_seg_write_mem env encrypt mem sp fd buf count offset tli segno).1 a
        = mem a := by
    intro a ha
    cases encrypt with
    | false => rfl
    | true =>
      rw [seg_write_mem_encrypting]
      exact write_mem_frame env mem sp fd buf count offset tli segno a hlen h4 hc64 hc ha
  refine ⟨?_, ?_, rfl, ?_⟩
  · intro i hi
    exact hframe _ (by omega)
  · intro a ha
    exact hframe _ (by omega)
  · intro hoff
    have hc0 := hc hoff
    rw [seg_write_mem_encrypting]
    constructor
    · rw [get_xlp_info_congr _
        (TDEXLogScratchOut env
          { EncryptXLog := true, TDEXLogEncryptBuf := regionAt mem sp,
            DecryptCurrentPageHrd := fun _ => 0 }
          (regionAt mem buf) count offset tli segno)
        (write_mem_scratch env _ mem sp fd buf count offset tli segno 2 rfl hlen h4 hc64 hc
          (by omega))
        (write_mem_scratch env _ mem sp fd buf count offset tli segno 3 rfl hlen h4 hc64 hc
          (by omega))]
      subst hoff
      exact scratchOut_first_info env _ _ count tli segno h4
    · exact get_xlp_info_congr _ _
        (write_mem_frame env mem sp fd buf count offset tli segno _ hlen h4 hc64 hc (by omega))
        (write_mem_frame env mem sp fd buf count offset tli segno _ hlen h4 hc64 hc (by omega))

/-- Witness for the amended C12: three pages at offset 0, the scratch buffer of
32768 bytes at address 0 and the input buffer behind it. -/
theorem input_not_mutated_witness :
    (∀ i, i < 24576 →
      (tdeheap_xlog_seg_write_mem pgEnv true (demoMem 32768) 0 demoFile
        32768 24576 0 1 0).1 (32768 + i) = demoMem 32768 (32768 + i)) ∧
    (∀ a, a < 0 ∨ 0 + 32768 ≤ a →
      (tdeheap_xlog_seg_write_mem pgEnv true (demoMem 32768) 0 demoFile
        32768 24576 0 1 0).1 a = demoMem 32768 a) ∧
    (tdeheap_xlog_seg_write_mem pgEnv false (demoMem 32768) 0 demoFile
      32768 24576 0 1 0).1 = demoMem 32768 ∧
    (0 = 0 →
      get_xlp_info (regionAt
          (tdeheap_xlog_seg_write_mem pgEnv true (demoMem 32768) 0 demoFile
            32768 24576 0 1 0).1 0) =
        (get_xlp_info (regionAt (demoMem 32768) 32768) ||| pgEnv.XLP_ENCRYPTED) % 65536 ∧
      get_xlp_info (regionAt
          (tdeheap_xlog_seg_write_mem pgEnv true (demoMem 32768) 0 demoFile
            32768 24576 0 1 0).1 32768) =
        get_xlp_info (regionAt (demoMem 32768) 32768)) :=
  input_not_mutated pgEnv true (demoMem 32768) 0 32768 demoFile 32768 24576 0 1 0
    (memEnv_keepsLength 40 8 7) (by decide) (by decide) (fun _ => by decide) (by decide)
    (by decide)

end PgTdeXLog
